import Mathlib

/-!
Verification development for the GIFLight target-size optimization engine
(`GIFLight.py`).  The Python source is shallowly embedded: file-system paths
are modelled structurally as lists of components, the file system as finite
lists of directory and file paths, and the effectful steps of the engine
(external processes, `os.path.exists`, copy failures, the cancellation event)
as explicit environment inputs.  Sizes reported by attempts are modelled as
`Option Nat`, with `none` standing for Python's `float('inf')` failure marker.
-/

namespace GIFLight

/-- Paths are lists of components (`os.path.join` is list append,
`os.path.dirname` is `dropLast`).  `normpath` is the identity on this
representation. -/
abbrev Path := List String

/-- `leadsWith d p` holds when `d` is an initial segment of `p`, i.e. `p`
denotes `d` itself or an entry inside the directory tree rooted at `d`. -/
def leadsWith : Path → Path → Bool
  | [], _ => true
  | _ :: _, [] => false
  | a :: as, b :: bs => a == b && leadsWith as bs

/-- A file system is the set (as lists) of existing directory paths and file
paths. -/
structure FS where
  dirs : List Path
  files : List Path
deriving Repr, DecidableEq

/-- Model of `os.path.exists`. -/
def FS.existsP (fs : FS) (p : Path) : Bool := fs.dirs.contains p || fs.files.contains p

/-- Model of `os.path.isdir`. -/
def FS.isDir (fs : FS) (p : Path) : Bool := fs.dirs.contains p

/-- Model of `os.makedirs`. -/
def FS.mkdir (fs : FS) (p : Path) : FS := { fs with dirs := p :: fs.dirs }

/-- Creation of a file (e.g. by `shutil.copy2` or an external encoder). -/
def FS.addFile (fs : FS) (p : Path) : FS := { fs with files := p :: fs.files }

/-- Model of `shutil.rmtree`: removes `p` and everything below it. -/
def FS.removeTree (fs : FS) (p : Path) : FS :=
  { dirs := fs.dirs.filter (fun q => !(leadsWith p q)),
    files := fs.files.filter (fun q => !(leadsWith p q)) }

/-- Model of `os.remove`. -/
def FS.removeFile (fs : FS) (p : Path) : FS :=
  { fs with files := fs.files.filter (fun q => !(q == p)) }

/-- Model of `os.listdir` restricted to the immediate entries of `d` that are
files (the engine only ever filters the listing down to `.png` frame files,
which are plain files). -/
def FS.listNames (fs : FS) (d : Path) : List String :=
  fs.files.filterMap (fun p => if p.dropLast = d then p.getLast? else none)

/-- Code-point comparison on characters. -/
def charLt (a b : Char) : Bool := a.val < b.val

/-- Lexicographic code-point comparison on character lists. -/
def chListLt : List Char → List Char → Bool
  | [], [] => false
  | [], _ :: _ => true
  | _ :: _, [] => false
  | a :: as, b :: bs => charLt a b || (a == b && chListLt as bs)

/-- Strict lexicographic order on strings by code points, as Python compares
`str` values. -/
def strLt (a b : String) : Bool := chListLt a.data b.data

/-- `chLeads a b` holds when character list `a` is an initial segment of `b`. -/
def chLeads : List Char → List Char → Bool
  | [], _ => true
  | _ :: _, [] => false
  | a :: as, b :: bs => a == b && chLeads as bs

/-- Model of Python's `str.endswith`. -/
def strEndsWith (s pat : String) : Bool := chLeads pat.data.reverse s.data.reverse

/-- Boolean string order used to model Python's `sorted`. -/
def strLe (a b : String) : Bool := !(strLt b a)

/-- Stable insertion used to model Python's `sorted`. -/
def insertSorted (x : String) : List String → List String
  | [] => [x]
  | y :: ys => if strLe x y then x :: y :: ys else y :: insertSorted x ys

/-- Model of Python's `sorted` on strings. -/
def sortStrings (l : List String) : List String := l.foldr insertSorted []

/-- Zero padding used by the `frame_{new_frame_index:04d}.png` format. -/
def pad4 (n : Nat) : String :=
  let s := toString n
  if s.length ≥ 4 then s else String.mk (List.replicate (4 - s.length) '0') ++ s

/-- Name of the per-attempt skip directory
(`frames_skip_{skip}_batch_{batch_id}_attempt_{attempt_id}`). -/
def skipDirName (skip : Int) (batch_id attempt_id : Nat) : String :=
  "frames_skip_" ++ toString skip ++ "_batch_" ++ toString batch_id ++
    "_attempt_" ++ toString attempt_id

/-- Copy loop of `prepare_frames_with_skip` (lines 2106-2118): every
`skip`-th frame of the enumerated sorted listing is copied into the skip
directory under a contiguously renumbered name; a failing copy (modelled by
`copyOk i = false`) is logged and skipped.  Returns the file system together
with the number of successfully copied frames. -/
def copyFramesLoop (copyOk : Nat → Bool) (skip_dir : Path) (skipN : Nat) :
    List (Nat × String) → FS → Nat → Nat → FS × Nat
  | [], fs, _, processed => (fs, processed)
  | (i, _) :: rest, fs, newIdx, processed =>
    if i % skipN = 0 then
      if copyOk i then
        let dest := skip_dir ++ ["frame_" ++ pad4 newIdx ++ ".png"]
        copyFramesLoop copyOk skip_dir skipN rest (fs.addFile dest) (newIdx + 1) (processed + 1)
      else
        copyFramesLoop copyOk skip_dir skipN rest fs newIdx processed
    else
      copyFramesLoop copyOk skip_dir skipN rest fs newIdx processed

/-- Embedding of `prepare_frames_with_skip` (lines 2081-2132).  Returns the
file system after the call and the directory the caller should use.  The
steps of the body cannot themselves raise in this model, so the outer
`except` branch (which would remove the skip directory and return the source
directory) is unreachable here; the two explicit soft-failure returns of the
body (empty listing, zero copied frames) are embedded faithfully. -/
def prepare_frames_with_skip (fs : FS) (source_dir : Path) (skip : Int)
    (batch_id attempt_id : Nat) (copyOk : Nat → Bool) : FS × Path :=
  if skip ≤ 1 then (fs, source_dir)
  else
    let parent_dir := source_dir.dropLast
    let skip_dir := parent_dir ++ [skipDirName skip batch_id attempt_id]
    let fs1 := (if fs.existsP skip_dir then fs.removeTree skip_dir else fs).mkdir skip_dir
    let frames := sortStrings ((fs1.listNames source_dir).filter (fun f => strEndsWith f ".png"))
    if frames.isEmpty then
      (fs1, source_dir)
    else
      let cl := copyFramesLoop copyOk skip_dir skip.toNat frames.enum fs1 0 0
      if cl.2 = 0 then
        ((if cl.1.existsP skip_dir then cl.1.removeTree skip_dir else cl.1), source_dir)
      else
        (cl.1, skip_dir)

example :
    (prepare_frames_with_skip ⟨[["t"], ["t", "f"]], []⟩ ["t", "f"] 1 1 0 (fun _ => true)) =
      (⟨[["t"], ["t", "f"]], []⟩, ["t", "f"]) := by rfl

example :
    (prepare_frames_with_skip ⟨[["t"], ["t", "f"]], []⟩ ["t", "f"] 2 1 0
        (fun _ => true)).2 = ["t", "f"] := by rfl

example :
    (prepare_frames_with_skip ⟨[["t"], ["t", "f"]], []⟩ ["t", "f"] 2 1 0
        (fun _ => true)).1.dirs.contains ["t", "frames_skip_2_batch_1_attempt_0"] = true := by
  rfl

example :
    (prepare_frames_with_skip ⟨[["t"], ["t", "f"]], [["t", "f", "a.png"], ["t", "f", "b.png"]]⟩
        ["t", "f"] 2 1 0 (fun _ => true)) =
      (⟨[["t", "frames_skip_2_batch_1_attempt_0"], ["t"], ["t", "f"]],
        [["t", "frames_skip_2_batch_1_attempt_0", "frame_0000.png"],
         ["t", "f", "a.png"], ["t", "f", "b.png"]]⟩,
       ["t", "frames_skip_2_batch_1_attempt_0"]) := by rfl

/-- `str.startswith`, used to model the `frame_*.png` glob. -/
def strStartsWith (s pat : String) : Bool := chLeads pat.data s.data

/-- Rendering of a structural path, for external command argument lists. -/
def pathStr (p : Path) : String := String.intercalate "/" p

/-- Stem of `os.path.splitext`: the part of a name before its last dot, or
the whole name when it has no dot. -/
def splitextStem (s : String) : String :=
  let r := s.data.reverse.dropWhile (fun c => !(c == '.'))
  if r.isEmpty then s else String.mk (r.drop 1).reverse

/-- Embedding of the `OptimizationParams` frozen dataclass (lines 587-592). -/
structure OptimizationParams where
  quality : Int
  lossy : Int
  frame_skip : Int
  output_path : Path
deriving Repr, DecidableEq

/-- Effective frame rate of an attempt
(line 2177: `current_fps / frame_skip if frame_skip > 1 else current_fps`). -/
def effectiveFps (current_fps : ℚ) (frame_skip : Int) : ℚ :=
  if frame_skip > 1 then current_fps / (frame_skip : ℚ) else current_fps

/-- Result triple of one attempt, as consumed by `convert_to_gif`:
`size` is `none` for Python's `float('inf')`; `path` and `skipDir` are `none`
when the Python value is falsy (`""` or `None`). -/
structure AttemptResult where
  size : Option Nat
  path : Option Path
  skipDir : Option Path
deriving Repr, DecidableEq

/-- Environment of one `try_optimization_params` call: the file system at
entry, the settings consulted by the body, the points at which the shared
cancellation event is observed set, and the outcome of each step that is
effectful or can raise (external processes, `os.makedirs`, `Image.open`,
frame copies). -/
structure AttemptEnv where
  fs : FS
  frames_dir : Path
  params : OptimizationParams
  current_fps : ℚ
  batch_id : Nat
  attempt_id : Nat
  lock_quality : Bool
  lock_lossy : Bool
  lock_frame_skip : Bool
  scale_percent : Nat
  loop_count : Nat
  preserve_animated_alpha : Bool
  frameWidth : Nat
  frameHeight : Nat
  copyOk : Nat → Bool
  cancelAtStart : Bool
  cancelAfterPrepare : Bool
  cancelDuringGifski : Bool
  cancelAfterGifski : Bool
  cancelDuringGifsicle : Bool
  mkdirsFails : Bool
  imageOpenFails : Bool
  gifskiWritesOutput : Bool
  gifsicleWritesOutput : Bool
  optimizedSize : Nat

/-- Parameter override from settings (lines 2147-2152): locked axes replace
the tier-supplied values by fixed ones. -/
def effParams (env : AttemptEnv) : OptimizationParams :=
  { quality := if env.lock_quality then 100 else env.params.quality,
    lossy := if env.lock_lossy then 0 else env.params.lossy,
    frame_skip := if env.lock_frame_skip then 1 else env.params.frame_skip,
    output_path := env.params.output_path }

/-- The `{base_output}.temp_{batch_id}_{attempt_id}.gif` pre-optimization
temp path (line 2160). -/
def tempOutputPath (output_path : Path) (batch_id attempt_id : Nat) : Path :=
  output_path.dropLast ++
    [splitextStem (output_path.getLastD "") ++ ".temp_" ++ toString batch_id ++ "_" ++
      toString attempt_id ++ ".gif"]

/-- The `{temp_output}_optimized.gif` post-optimization temp path
(line 2161). -/
def tempOptimizedPath (temp_output : Path) : Path :=
  temp_output.dropLast ++ [temp_output.getLastD "" ++ "_optimized.gif"]

/-- Loop flag passed to gifsicle (lines 2250-2255): `--no-loop` for a play
count of one, `--loop=N-1` for a larger play count, nothing for zero
(infinite looping). -/
def loopArgs (loop_count : Nat) : List String :=
  if loop_count = 1 then ["--no-loop"]
  else if loop_count > 1 then ["--loop=" ++ toString (loop_count - 1)]
  else []

/-- Output dimension scaled by the configured percentage, clamped to at
least one pixel (lines 2184-2185). -/
def scaledDim (dim scale_percent : Nat) : Nat := max (dim * scale_percent / 100) 1

/-- The gifski argument list (lines 2204-2214): explicit ordered frame
files, quality, effective fps, scaled dimensions and `--no-sort`.  The
binary path constant is abstracted to the program name. -/
def gifskiCmd (quality : Int) (effFps : ℚ) (w h : Nat) (temp_output : Path)
    (frame_files : List Path) : List String :=
  ["gifski", "--output", pathStr temp_output, "--quality", toString quality,
   "--fps", toString effFps, "--width", toString w, "--height", toString h,
   "--no-sort"] ++ frame_files.map pathStr

/-- The gifsicle argument list (lines 2257-2270). -/
def gifsicleCmd (lossy : Int) (loop_count : Nat) (alpha : Bool)
    (temp_output temp_output_optimized : Path) : List String :=
  ["gifsicle", "--lossy=" ++ toString lossy, "-O3", "--careful", "--no-warnings",
   "--no-ignore-errors", "--resize-method=sample"] ++ loopArgs loop_count ++
   (if alpha then ["--optimize-transparency", "--no-conserve-memory"] else []) ++
   ["-i", pathStr temp_output, "-o", pathStr temp_output_optimized]

/-- Exit of the `try` body of `try_optimization_params` (lines 2154-2297):
a normal success return, one of the explicit failed-triple returns taken
when the cancellation event is observed set, or an exception reaching the
`except Exception` clause.  Each exit carries the skip directory known at
that point, the file system, and the external commands issued so far. -/
inductive BodyExit where
  | ok (size : Nat) (path : Path) (skipDir : Option Path) (fs : FS) (log : List (List String))
  | cancelled (skipDir : Option Path) (fs : FS) (log : List (List String))
  | raised (msg : String) (skipDir : Option Path) (fs : FS) (log : List (List String))
deriving Repr, DecidableEq

/-- Step-through of the `try` body of `try_optimization_params`
(lines 2154-2297), in source order: first cancellation check, temp path
setup and `os.makedirs`, frame-skip preparation, second cancellation check,
skip-directory and frame-listing validation, effective fps and scaled
dimensions, gifski launch with its polled cancellation check, gifski output
check, third cancellation check, gifsicle launch with its polled
cancellation check, gifsicle output check, and the success return with the
optimized file's size. -/
def tryBodyExit (env : AttemptEnv) : BodyExit :=
  let p := effParams env
  if env.cancelAtStart then .cancelled none env.fs []
  else
    let temp_output := tempOutputPath p.output_path env.batch_id env.attempt_id
    let temp_output_optimized := tempOptimizedPath temp_output
    if env.mkdirsFails then .raised "makedirs failed" none env.fs []
    else
      let fs0 := env.fs.mkdir p.output_path.dropLast
      let pr := prepare_frames_with_skip fs0 env.frames_dir p.frame_skip
        env.batch_id env.attempt_id env.copyOk
      let fs1 := pr.1
      let skip_dir := pr.2
      if env.cancelAfterPrepare then .cancelled (some skip_dir) fs1 []
      else if !(fs1.isDir skip_dir) then
        .raised "Skip directory not created or missing" (some skip_dir) fs1 []
      else
        let frames := sortStrings ((fs1.listNames skip_dir).filter
          (fun f => strEndsWith f ".png"))
        if frames.isEmpty then
          .raised "No frames found in skip directory" (some skip_dir) fs1 []
        else
          let effective_fps := effectiveFps env.current_fps p.frame_skip
          if env.imageOpenFails then .raised "Image.open failed" (some skip_dir) fs1 []
          else
            let scaled_width := scaledDim env.frameWidth env.scale_percent
            let scaled_height := scaledDim env.frameHeight env.scale_percent
            let frame_files := (sortStrings ((fs1.listNames skip_dir).filter
              (fun f => strStartsWith f "frame_" && strEndsWith f ".png"))).map
              (fun f => skip_dir ++ [f])
            let cmd1 := gifskiCmd p.quality effective_fps scaled_width scaled_height
              temp_output frame_files
            if env.cancelDuringGifski then .cancelled (some skip_dir) fs1 [cmd1]
            else
              let fs2 := if env.gifskiWritesOutput then fs1.addFile temp_output else fs1
              if !(fs2.existsP temp_output) then
                .raised "GIF generation via gifski failed" (some skip_dir) fs2 [cmd1]
              else if env.cancelAfterGifski then .cancelled (some skip_dir) fs2 [cmd1]
              else
                let cmd2 := gifsicleCmd p.lossy env.loop_count env.preserve_animated_alpha
                  temp_output temp_output_optimized
                if env.cancelDuringGifsicle then
                  .cancelled (some skip_dir) fs2 [cmd1, cmd2]
                else
                  let fs3 := if env.gifsicleWritesOutput then
                      fs2.addFile temp_output_optimized
                    else fs2
                  if !(fs3.existsP temp_output_optimized) then
                    .raised "GIF optimization via gifsicle failed" (some skip_dir) fs3 [cmd1, cmd2]
                  else
                    .ok env.optimizedSize temp_output_optimized (some skip_dir) fs3 [cmd1, cmd2]

/-- Embedding of `try_optimization_params` (lines 2135-2303): the `except
Exception` clause turns every raised error into the failed triple with the
skip directory created so far, and the `finally` clause removes the
pre-optimization temp file when it exists (removing a non-existent file is
the identity on the model file system, which also covers the first
cancellation return, taken before the temp path is assigned).  Returns the
result triple, the file system after the call, and the external commands
issued. -/
def try_optimization_params (env : AttemptEnv) : AttemptResult × FS × List (List String) :=
  let p := effParams env
  let temp_output := tempOutputPath p.output_path env.batch_id env.attempt_id
  match tryBodyExit env with
  | .ok s path sd fs log => (⟨some s, some path, sd⟩, fs.removeFile temp_output, log)
  | .cancelled sd fs log => (⟨none, none, sd⟩, fs.removeFile temp_output, log)
  | .raised _ sd fs log => (⟨none, none, sd⟩, fs.removeFile temp_output, log)

/-- The cancellation event (`threading.Event`), modelled by the step index
at which it becomes set (`none` = never set during the run).  Observation
points are numbered by a global counter, so once observed set at a check
the flag stays set at every later check, as an `Event` does. -/
def cancelAt (ct : Option Nat) (t : Nat) : Bool :=
  match ct with
  | none => false
  | some k => k ≤ t

/-- `abs(target_size_bytes - size)` (lines 2629-2630); both operands are
integer byte counts. -/
def distT (target s : Nat) : Nat := ((target : Int) - (s : Int)).natAbs

/-- The 5%-closeness test `abs(target_size_bytes - size) / target_size_bytes
< 0.05` (line 2636), modelled as the exact rational comparison
`20 * |target - size| < target`.  The Python comparison is performed in
double precision against the literal `0.05`; the two disagree only when the
exact ratio falls within one rounding error of `1/20`, and no claim below
depends on such inputs. -/
def acceptableClose (target s : Nat) : Bool := 20 * distT target s < target

/-- State threaded through the result-consumption loop of `convert_to_gif`:
`best` merges the `best_size` / `best_result` pair (initialized to
`float('inf')` / `None` and always written together, lines 2631-2632),
`found_acceptable` is `found_acceptable_result`, and `cleanup` is the
`temp_files_to_cleanup` set (kept as a deduplicated list). -/
structure SearchState where
  best : Option (Nat × Path)
  found_acceptable : Bool
  cleanup : List Path
deriving Repr, DecidableEq

/-- Set insertion for `temp_files_to_cleanup.add`. -/
def addCleanup (l : List Path) (p : Path) : List Path :=
  if l.contains p then l else l ++ [p]

/-- Lines 2624-2625: schedule a truthy skip directory distinct from the
frames directory for cleanup. -/
def noteSkipDir (frames_dir : Path) (st : SearchState) : Option Path → SearchState
  | some d => if d ≠ frames_dir then { st with cleanup := addCleanup st.cleanup d } else st
  | none => st

/-- Consumption of one completed attempt result (lines 2623-2640): schedule
the skip directory for cleanup (`noteSkipDir`); then, if the result is valid
(finite size, truthy path, path exists), either update the best pair when
the size is within the target and strictly closer than the current best —
flagging an acceptable result when within 5% — or record that this batch
saw an over-target result.  The third component reports whether the loop
should break because an acceptable result was just flagged. -/
def consumeOne (target : Nat) (ex : Path → Bool) (frames_dir : Path)
    (st : SearchState) (under : Bool) (r : AttemptResult) : SearchState × Bool × Bool :=
  let st := noteSkipDir frames_dir st r.skipDir
  match r.size, r.path with
  | some s, some pth =>
    if ex pth then
      if s ≤ target then
        match st.best with
        | none =>
          let st := { st with best := some (s, pth) }
          if acceptableClose target s then ({ st with found_acceptable := true }, under, true)
          else (st, under, false)
        | some (b, _) =>
          if distT target s < distT target b then
            let st := { st with best := some (s, pth) }
            if acceptableClose target s then ({ st with found_acceptable := true }, under, true)
            else (st, under, false)
          else (st, under, false)
      else (st, false, false)
    else (st, under, false)
  | _, _ => (st, under, false)

/-- Output of one tier's result-consumption loop. -/
structure ConsumeOut where
  st : SearchState
  under : Bool
  t : Nat
  consumed : List AttemptResult
  cancelBreak : Bool
deriving Repr, DecidableEq

/-- The per-tier result-consumption loop (lines 2613-2644): results arrive
in completion order (the model's input list); before consuming each one the
cancellation event is checked (line 2615, breaking and cancelling pending
tasks when set), and flagging an acceptable result breaks out of the loop
(line 2638). -/
def consumeLoop (target : Nat) (ex : Path → Bool) (frames_dir : Path) (ct : Option Nat) :
    List AttemptResult → SearchState → Bool → Nat → ConsumeOut
  | [], st, under, t => ⟨st, under, t, [], false⟩
  | r :: rs, st, under, t =>
    if cancelAt ct t then ⟨st, under, t + 1, [], true⟩
    else
      let step := consumeOne target ex frames_dir st under r
      if step.2.2 then ⟨step.1, step.2.1, t + 1, [r], false⟩
      else
        let out := consumeLoop target ex frames_dir ct rs step.1 step.2.1 (t + 1)
        { out with consumed := r :: out.consumed }

/-- One row of the hard-coded batch table. -/
structure BatchSpec where
  qualities : List Int
  lossies : List Int
  frame_skips : List Int
deriving Repr, DecidableEq

/-- The hard-coded optimization batch table (lines 2553-2572). -/
def batch_params : List BatchSpec :=
  [⟨[100, 95, 90], [0, 20, 40], [0, 1]⟩,
   ⟨[90, 85, 80], [60, 70, 80], [1, 2]⟩,
   ⟨[80, 80, 80], [60, 70, 80], [2, 3, 4]⟩]

/-- Output of the task-creation loops of one tier. -/
structure BuildOut where
  params : List OptimizationParams
  counter : Nat
  t : Nat
deriving Repr, DecidableEq

/-- Innermost task-creation loop over `batch['frame_skips']`
(lines 2590-2604): each iteration first checks the cancellation event
(breaking out of this innermost loop when set), then constructs one
`OptimizationParams` with the running `attempt_counter` naming its output
path. -/
def fsLoop (ct : Option Nat) (batch_dir : Path) (q l : Int) :
    List Int → Nat → Nat → BuildOut
  | [], counter, t => ⟨[], counter, t⟩
  | s :: rest, counter, t =>
    if cancelAt ct t then ⟨[], counter, t + 1⟩
    else
      let p : OptimizationParams := ⟨q, l, s, batch_dir ++ ["attempt_" ++ toString counter]⟩
      let out := fsLoop ct batch_dir q l rest (counter + 1) (t + 1)
      { out with params := p :: out.params }

/-- Middle task-creation loop over `batch['lossies']`. -/
def lossyLoop (ct : Option Nat) (batch_dir : Path) (q : Int) (skips : List Int) :
    List Int → Nat → Nat → BuildOut
  | [], counter, t => ⟨[], counter, t⟩
  | l :: ls, counter, t =>
    let o1 := fsLoop ct batch_dir q l skips counter t
    let o2 := lossyLoop ct batch_dir q skips ls o1.counter o1.t
    ⟨o1.params ++ o2.params, o2.counter, o2.t⟩

/-- Outer task-creation loop over `batch['qualities']` (lines 2588-2604). -/
def qualityLoop (ct : Option Nat) (batch_dir : Path) (lossies skips : List Int) :
    List Int → Nat → Nat → BuildOut
  | [], counter, t => ⟨[], counter, t⟩
  | q :: qs, counter, t =>
    let o1 := lossyLoop ct batch_dir q skips lossies counter t
    let o2 := qualityLoop ct batch_dir lossies skips qs o1.counter o1.t
    ⟨o1.params ++ o2.params, o2.counter, o2.t⟩

/-- Which `break` ended the outer tier loop at a given tier. -/
inductive TierBreak where
  | cancelBeforeConsume
  | cancelOrAcceptable
  | uniformUnder
deriving Repr, DecidableEq

/-- Trace entry of one executed tier: its 1-based index, the attempts
launched, the results consumed, the final `batch_results_under_target`
flag, and the `break` that ended the outer loop here, if any. -/
structure TierTrace where
  idx : Nat
  launched : List OptimizationParams
  consumed : List AttemptResult
  under : Bool
  brk : Option TierBreak
deriving Repr, DecidableEq

/-- Output of the outer tier loop. -/
structure LoopOut where
  st : SearchState
  trace : List TierTrace
  t : Nat
  counter : Nat
  earlyReturn : Bool
deriving Repr, DecidableEq

/-- Environment of one target-size `convert_to_gif` run: the byte budget
(as the KB figure the user entered), the location of the input file, the
time at which cancellation is requested (if ever), whether the pre-loop
phase (extraction, transparency) raises, the completion-ordered results
each tier's attempts produce, `os.path.exists`, and the behaviour of the
finalize step. -/
structure RunEnv where
  desired_size : Nat
  input_parent : Path
  input_stem : String
  cancelTime : Option Nat
  preLoopFails : Bool
  tierResults : Nat → List AttemptResult
  ex : Path → Bool
  use_imagemagick : Bool
  polishResult : Option Nat
  copyFails : Bool

/-- `target_size_bytes = desired_size * 1024` (line 2318). -/
def targetBytes (env : RunEnv) : Nat := env.desired_size * 1024

/-- The `gif_conversion_temp` parent of every temporary artifact
(line 2322). -/
def tempParentDir (env : RunEnv) : Path := env.input_parent ++ ["gif_conversion_temp"]

/-- The extracted-frames directory (line 2328). -/
def framesDir (env : RunEnv) : Path := tempParentDir env ++ ["frames_temp"]

/-- The final output path (line 2317). -/
def outPath (env : RunEnv) : Path := env.input_parent ++ [env.input_stem ++ "_optimized.gif"]

/-- The per-tier batch directory (line 2584). -/
def batchDir (env : RunEnv) (i : Nat) : Path := tempParentDir env ++ ["batch_" ++ toString i]

/-- The outer tier loop (lines 2577-2655): per tier, in order — the
tier-start cancellation check (lines 2578-2580, a `return` from the whole
function when set), batch-directory creation, the task-creation loops, the
post-creation cancellation check (lines 2606-2607, a `break`), the
result-consumption loop, scheduling the batch directory for cleanup
(line 2647), the cancel-or-acceptable `break` (lines 2649-2650), and the
all-under-target early exit (lines 2653-2655). -/
def tierLoop (env : RunEnv) : List (Nat × BatchSpec) → SearchState → Nat → Nat → LoopOut
  | [], st, counter, t => ⟨st, [], t, counter, false⟩
  | (i, b) :: rest, st, counter, t =>
    if cancelAt env.cancelTime t then ⟨st, [], t + 1, counter, true⟩
    else
      let batch_dir := batchDir env i
      let bo := qualityLoop env.cancelTime batch_dir b.lossies b.frame_skips b.qualities
        counter (t + 1)
      if cancelAt env.cancelTime bo.t then
        ⟨st, [⟨i, bo.params, [], true, some .cancelBeforeConsume⟩], bo.t + 1, bo.counter, false⟩
      else
        let co := consumeLoop (targetBytes env) env.ex (framesDir env) env.cancelTime
          (env.tierResults i) st true (bo.t + 1)
        let st1 := { co.st with cleanup := addCleanup co.st.cleanup batch_dir }
        if cancelAt env.cancelTime co.t || st1.found_acceptable then
          ⟨st1, [⟨i, bo.params, co.consumed, co.under, some .cancelOrAcceptable⟩],
            co.t + 1, bo.counter, false⟩
        else if co.under && st1.best.isSome then
          ⟨st1, [⟨i, bo.params, co.consumed, co.under, some .uniformUnder⟩],
            co.t + 1, bo.counter, false⟩
        else
          let lo := tierLoop env rest st1 bo.counter (co.t + 1)
          { lo with trace := ⟨i, bo.params, co.consumed, co.under, none⟩ :: lo.trace }

/-- Terminal outcome of one `convert_to_gif` run: a saved final file with
its byte size, the "no suitable result" warning path, a cancelled run, or
an error logged by the outer `except` clause. -/
inductive RunOutcome where
  | found (path : Path) (size : Nat)
  | notFound
  | cancelled
  | errored
deriving Repr, DecidableEq

/-- Result of the target-size search: the outcome, the tier trace, the
`temp_files_to_cleanup` contents for the `finally` block, the final best
pair, whether the winning-candidate copy/polish step ran, and the index of
the run's last cancellation check. -/
structure RunResult where
  outcome : RunOutcome
  trace : List TierTrace
  cleanup : List Path
  best : Option (Nat × Path)
  finalized : Bool
  tFinal : Nat
deriving Repr, DecidableEq

/-- The post-loop finalize section (lines 2657-2703), yielding the run's
outcome and whether the copy/polish step was entered: the guard at
line 2658 requires a recorded best whose file still exists and an unset
cancellation flag; the `elif not cancelled` at line 2696 distinguishes
`notFound` from a silent cancelled ending.  A polish failure or copy
failure raises, is re-raised at line 2695 and is swallowed by the run's
outer `except`, giving the `errored` outcome.  When the polish pass is
disabled the copy preserves the winning file's bytes, so the reported
final size is the recorded best size; a polish pass yields whatever size
the external tool produced (`apply_imagemagick_optimization` imposes no
size bound, lines 1053-1150). -/
def finalizeOutcome (env : RunEnv) (lo : LoopOut) : RunOutcome × Bool :=
  if lo.earlyReturn then (.cancelled, false)
  else
    match lo.st.best with
    | some (b, bp) =>
      if env.ex bp then
        if cancelAt env.cancelTime lo.t then (.cancelled, false)
        else if env.use_imagemagick then
          match env.polishResult with
          | some sz => (.found (outPath env) sz, true)
          | none => (.errored, true)
        else if env.copyFails then (.errored, true)
        else (.found (outPath env) b, true)
      else if cancelAt env.cancelTime lo.t then (.cancelled, false)
      else (.notFound, false)
    | none =>
      if cancelAt env.cancelTime lo.t then (.cancelled, false)
      else (.notFound, false)

/-- Embedding of the target-size branch of `convert_to_gif`
(lines 2305-2703): the pre-loop cancellation check and extraction phase
(summarized by `preLoopFails`), the tier loop over the hard-coded batch
table, and the finalize section (`finalizeOutcome`). -/
def runConvert (env : RunEnv) : RunResult :=
  if cancelAt env.cancelTime 0 then ⟨.cancelled, [], [], none, false, 0⟩
  else if env.preLoopFails then ⟨.errored, [], [], none, false, 0⟩
  else
    let lo := tierLoop env (List.enumFrom 1 batch_params) ⟨none, false, []⟩ 0 1
    let oc := finalizeOutcome env lo
    ⟨oc.1, lo.trace, lo.st.cleanup, lo.st.best, oc.2, lo.t⟩

/-- One removal of the `finally` block (lines 2715-2723): if the path
exists it is removed (a directory with its tree, a file alone — both are
`removeTree` on this model), inside its own `try` so a failure (modelled by
`failsOn`) leaves the file system unchanged and the loop continues. -/
def cleanStep (failsOn : Path → Bool) (a : FS) (p : Path) : FS :=
  if a.existsP p then (if failsOn p then a else a.removeTree p) else a

/-- The `finally` block of `convert_to_gif` (lines 2711-2730): each
scheduled path is removed inside its own `try`, then the temporary parent
tree is removed in its own `try` (lines 2726-2730). -/
def finalCleanup (fs : FS) (cleanup : List Path) (parent : Path)
    (failsOn : Path → Bool) : FS :=
  cleanStep failsOn (cleanup.foldl (cleanStep failsOn) fs) parent

/-- File system after a whole `convert_to_gif` run: the artifacts created
during the body (the temporary parent, the frames directory, the entered
tiers' batch directories, and the attempt-created directories and files
supplied by the environment) joined with the initial file system, then the
`finally` cleanup — which runs on every exit path, the `errored` and
`cancelled` outcomes included, because `finally` runs however the `try`
block exits.  Removals performed during the body itself are omitted: they
only make artifacts absent earlier. -/
def convertFinalFS (env : RunEnv) (fs0 : FS) (attemptDirs attemptFiles : List Path)
    (failsOn : Path → Bool) : FS :=
  let r := runConvert env
  let fs1 : FS :=
    { dirs := tempParentDir env :: framesDir env ::
        (r.trace.map (fun tr => batchDir env tr.idx) ++ attemptDirs ++ fs0.dirs),
      files := attemptFiles ++ fs0.files }
  finalCleanup fs1 r.cleanup (tempParentDir env) failsOn

/-! ### Basic lemmas about the path and file-system model -/

theorem leadsWith_self (p : Path) : leadsWith p p = true := by
  induction p with
  | nil => rfl
  | cons a as ih => simp [leadsWith, ih]

theorem leadsWith_append (d rest : Path) : leadsWith d (d ++ rest) = true := by
  induction d with
  | nil => rfl
  | cons a as ih => simp [leadsWith, ih]

theorem leadsWith_trans {a b c : Path} (h₁ : leadsWith a b = true)
    (h₂ : leadsWith b c = true) : leadsWith a c = true := by
  induction a generalizing b c with
  | nil => rfl
  | cons x xs ih =>
    cases b with
    | nil => simp [leadsWith] at h₁
    | cons y ys =>
      cases c with
      | nil => simp [leadsWith] at h₂
      | cons z zs =>
        simp only [leadsWith, Bool.and_eq_true, beq_iff_eq] at h₁ h₂ ⊢
        exact ⟨h₁.1.trans h₂.1, ih h₁.2 h₂.2⟩

theorem contains_filter_not_leadsWith (l : List Path) (p q : Path)
    (h : leadsWith p q = true) :
    (l.filter (fun r => !(leadsWith p r))).contains q = false := by
  induction l with
  | nil => rfl
  | cons a as ih =>
    by_cases ha : leadsWith p a = true
    · simpa [List.filter, ha] using ih
    · have ha' : leadsWith p a = false := by
        cases hx : leadsWith p a
        · rfl
        · exact absurd hx ha
      simp only [List.filter, ha', Bool.not_false, List.contains_cons, ih, Bool.or_false]
      cases hev : (q == a)
      · rfl
      · exfalso
        have : q = a := by exact eq_of_beq hev
        subst this
        exact ha h

/-- After `rmtree p`, nothing at or below `p` exists. -/
theorem existsP_removeTree (fs : FS) (p q : Path) (h : leadsWith p q = true) :
    (fs.removeTree p).existsP q = false := by
  simp only [FS.existsP, FS.removeTree, contains_filter_not_leadsWith _ _ _ h,
    Bool.or_false]

/-! ### C10: frame_skip ≤ 1 is a passthrough, and frame_skip 0 behaves as 1 -/

theorem prepare_skip_le_one (fs : FS) (src : Path) (skip : Int) (b a : Nat)
    (ok : Nat → Bool) (h : skip ≤ 1) :
    prepare_frames_with_skip fs src skip b a ok = (fs, src) := by
  simp [prepare_frames_with_skip, h]

theorem effectiveFps_skip_le_one (fps : ℚ) (skip : Int) (h : skip ≤ 1) :
    effectiveFps fps skip = fps := by
  simp [effectiveFps, show ¬(1 < skip) from by omega]

/-- The attempt pipeline with `frame_skip = 0` coincides with `frame_skip = 1`
on the result triple, the file system, and every issued external command. -/
theorem tryOpt_skip_zero_eq_one (env : AttemptEnv) :
    try_optimization_params { env with params := { env.params with frame_skip := 0 } } =
      try_optimization_params { env with params := { env.params with frame_skip := 1 } } := by
  by_cases h : env.lock_frame_skip <;>
    simp [try_optimization_params, tryBodyExit, effParams, h,
      prepare_skip_le_one, effectiveFps_skip_le_one]

/-- C10: for every skip value ≤ 1 (0 and negatives included),
`prepare_frames_with_skip` returns the source directory with no
file-system effect, the effective frame rate equals `current_fps` for
every `frame_skip ≤ 1`, and an attempt with `frame_skip = 0` behaves
identically to the same attempt with `frame_skip = 1` (same result
triple, same file system, same issued external commands). -/
theorem C10_skip_le_one_passthrough :
    (∀ (fs : FS) (src : Path) (skip : Int) (b a : Nat) (ok : Nat → Bool),
        skip ≤ 1 → prepare_frames_with_skip fs src skip b a ok = (fs, src)) ∧
    (∀ (fps : ℚ) (skip : Int), skip ≤ 1 → effectiveFps fps skip = fps) ∧
    (∀ env : AttemptEnv,
        try_optimization_params { env with params := { env.params with frame_skip := 0 } } =
          try_optimization_params { env with params := { env.params with frame_skip := 1 } }) :=
  ⟨prepare_skip_le_one, effectiveFps_skip_le_one, tryOpt_skip_zero_eq_one⟩

/-- Witness for C10 at skip value 0. -/
theorem C10_skip_le_one_passthrough_witness :
    prepare_frames_with_skip ⟨[["t"]], [["t", "f", "a.png"]]⟩ ["t", "f"] 0 1 2
        (fun _ => true) = (⟨[["t"]], [["t", "f", "a.png"]]⟩, ["t", "f"]) ∧
      effectiveFps 15 0 = 15 :=
  ⟨C10_skip_le_one_passthrough.1 _ _ _ _ _ _ (by decide),
   C10_skip_le_one_passthrough.2.1 15 0 (by decide)⟩

/-! ### C8: the zero-frames-copied soft-failure of prepare_frames_with_skip -/

/-- The copy loop leaves the file system untouched and copies nothing when
every copy attempt fails. -/
theorem copyFramesLoop_all_fail (ok : Nat → Bool) (sd : Path) (k : Nat)
    (L : List (Nat × String)) (fs : FS) (ni pr : Nat)
    (h : ∀ i, ok i = false) :
    copyFramesLoop ok sd k L fs ni pr = (fs, pr) := by
  induction L generalizing fs ni pr with
  | nil => rfl
  | cons a rest ih =>
    obtain ⟨i, f⟩ := a
    simp only [copyFramesLoop, h i]
    split <;> simp [ih]

/-- C8 counterexample: calling `prepare_frames_with_skip` with `skip = 2` on
a source directory containing no frames copies zero frames and returns the
source directory, but the freshly created skip directory is NOT removed
from disk (the early return at lines 2099-2101 precedes the cleanup at
lines 2120-2124), contradicting the claimed removal. -/
theorem C8_counterexample :
    ¬ ((prepare_frames_with_skip ⟨[["t"], ["t", "f"]], []⟩ ["t", "f"] 2 1 0
          (fun _ => true)).1.existsP ["t", "frames_skip_2_batch_1_attempt_0"] = false) := by
  decide

/-- C8 as amended: for `skip > 1` with zero frames copied, the original
source directory is returned and nothing raises, but the skip directory's
fate depends on which zero-copy case occurred — an empty `.png` listing
leaves the freshly created empty skip directory on disk, while a non-empty
listing whose copies all fail removes it.  The `hclean` hypothesis says no
stale file lies inside the skip directory's path (its name is unique per
`(skip, batch, attempt)`, so this holds in every run). -/
theorem C8_amended (fs : FS) (src : Path) (skip : Int) (b a : Nat) (ok : Nat → Bool)
    (hskip : 1 < skip)
    (hclean : ∀ p ∈ fs.files, leadsWith (src.dropLast ++ [skipDirName skip b a]) p = false) :
    (((fs.listNames src).filter (fun f => strEndsWith f ".png")).isEmpty = true →
        (prepare_frames_with_skip fs src skip b a ok).2 = src ∧
        (prepare_frames_with_skip fs src skip b a ok).1.existsP
          (src.dropLast ++ [skipDirName skip b a]) = true) ∧
    (((fs.listNames src).filter (fun f => strEndsWith f ".png")).isEmpty = false →
      (∀ i, ok i = false) →
        (prepare_frames_with_skip fs src skip b a ok).2 = src ∧
        (prepare_frames_with_skip fs src skip b a ok).1.existsP
          (src.dropLast ++ [skipDirName skip b a]) = false) := by
  have hns : ¬ skip ≤ 1 := by omega
  set sd := src.dropLast ++ [skipDirName skip b a] with hsd
  have hfiles :
      ((if fs.existsP sd then fs.removeTree sd else fs).mkdir sd).files = fs.files := by
    by_cases hex : fs.existsP sd = true
    · simp only [hex, if_pos, FS.mkdir, FS.removeTree]
      exact List.filter_eq_self.mpr (fun p hp => by simp [hclean p hp])
    · simp [hex, FS.mkdir]
  have hnames :
      ((if fs.existsP sd then fs.removeTree sd else fs).mkdir sd).listNames src =
        fs.listNames src := by
    simp only [FS.listNames, hfiles]
  constructor
  · intro hempty
    have hempty' : sortStrings ((((if fs.existsP sd then fs.removeTree sd else fs).mkdir
        sd).listNames src).filter (fun f => strEndsWith f ".png")) = [] := by
      rw [hnames]
      have : (fs.listNames src).filter (fun f => strEndsWith f ".png") = [] :=
        List.isEmpty_iff.mp hempty
      rw [this]
      rfl
    simp only [prepare_frames_with_skip, if_neg hns, ← hsd, hempty', List.isEmpty_nil,
      if_pos]
    exact ⟨trivial, by simp [FS.mkdir, FS.existsP]⟩
  · intro hne hfail
    have hinslen : ∀ (z : String) (L : List String),
        (insertSorted z L).length = L.length + 1 := by
      intro z L
      induction L with
      | nil => rfl
      | cons w ws ihw =>
        simp only [insertSorted]
        split <;> simp [ihw]
    have hsortlen : ∀ L : List String, (sortStrings L).length = L.length := by
      intro L
      induction L with
      | nil => rfl
      | cons y ys ih =>
        show (insertSorted y (sortStrings ys)).length = ys.length + 1
        rw [hinslen, ih]
    have hne' : (sortStrings ((((if fs.existsP sd then fs.removeTree sd else fs).mkdir
        sd).listNames src).filter (fun f => strEndsWith f ".png"))).isEmpty = false := by
      rw [hnames]
      cases hl : (fs.listNames src).filter (fun f => strEndsWith f ".png") with
      | nil => rw [hl] at hne; simp at hne
      | cons x xs =>
        have := hsortlen (x :: xs)
        cases hss : sortStrings (x :: xs) with
        | nil => rw [hss] at this; simp at this
        | cons y ys => simp
    have hloop : copyFramesLoop ok sd skip.toNat
        (sortStrings ((((if fs.existsP sd then fs.removeTree sd else fs).mkdir
          sd).listNames src).filter (fun f => strEndsWith f ".png"))).enum
        ((if fs.existsP sd then fs.removeTree sd else fs).mkdir sd) 0 0 =
        (((if fs.existsP sd then fs.removeTree sd else fs).mkdir sd), 0) :=
      copyFramesLoop_all_fail _ _ _ _ _ _ _ hfail
    have hexsd : ((if fs.existsP sd then fs.removeTree sd else fs).mkdir sd).existsP
        sd = true := by simp [FS.mkdir, FS.existsP]
    simp only [prepare_frames_with_skip, if_neg hns, ← hsd, hne', Bool.false_eq_true,
      if_false, hloop, if_pos rfl, hexsd, if_true]
    exact ⟨trivial, existsP_removeTree _ _ _ (leadsWith_self sd)⟩

/-! ### C7: attempt failures and cancellations never escape the attempt -/

/-- File system after the preparation step of an attempt. -/
def attemptFSAfterPrep (env : AttemptEnv) : FS :=
  (prepare_frames_with_skip (env.fs.mkdir (effParams env).output_path.dropLast)
    env.frames_dir (effParams env).frame_skip env.batch_id env.attempt_id env.copyOk).1

/-- The skip directory produced by the preparation step of an attempt. -/
def attemptSkipDir (env : AttemptEnv) : Path :=
  (prepare_frames_with_skip (env.fs.mkdir (effParams env).output_path.dropLast)
    env.frames_dir (effParams env).frame_skip env.batch_id env.attempt_id env.copyOk).2

/-- The sorted `.png` listing of the skip directory seen by an attempt. -/
def attemptFrames (env : AttemptEnv) : List String :=
  sortStrings (((attemptFSAfterPrep env).listNames (attemptSkipDir env)).filter
    (fun f => strEndsWith f ".png"))

/-- C7: `try_optimization_params` is a total function of its environment (the
embedding of its `except Exception` clause, conjuncts one and two, maps every
raised error and every cancellation return of the body to a normally returned
result), and the failed result is always `(+infinity, falsy path, the skip
directory created so far)`: any exception reaching the handler, the
cancellation flag observed at the start (before any directory exists), after
preparation, during the assembler call, between the two calls, or during the
optimizer call — each yields the failed triple rather than a propagated
exception, so one failed parameter combination never aborts the tier or the
run. -/
theorem C7_attempt_failures_contained (env : AttemptEnv) :
    (∀ m sd fs log, tryBodyExit env = .raised m sd fs log →
        (try_optimization_params env).1 = ⟨none, none, sd⟩) ∧
    (∀ sd fs log, tryBodyExit env = .cancelled sd fs log →
        (try_optimization_params env).1 = ⟨none, none, sd⟩) ∧
    (env.cancelAtStart = true → (try_optimization_params env).1 = ⟨none, none, none⟩) ∧
    (env.cancelAtStart = false → env.mkdirsFails = false →
      env.cancelAfterPrepare = true →
        (try_optimization_params env).1 = ⟨none, none, some (attemptSkipDir env)⟩) ∧
    (env.cancelAtStart = false → env.mkdirsFails = false →
      env.cancelAfterPrepare = false →
      (attemptFSAfterPrep env).isDir (attemptSkipDir env) = true →
      (attemptFrames env).isEmpty = false → env.imageOpenFails = false →
      env.cancelDuringGifski = true →
        (try_optimization_params env).1 = ⟨none, none, some (attemptSkipDir env)⟩) ∧
    (env.cancelAtStart = false → env.mkdirsFails = false →
      env.cancelAfterPrepare = false →
      (attemptFSAfterPrep env).isDir (attemptSkipDir env) = true →
      (attemptFrames env).isEmpty = false → env.imageOpenFails = false →
      env.cancelDuringGifski = false → env.gifskiWritesOutput = true →
      (env.cancelAfterGifski = true ∨ env.cancelDuringGifsicle = true) →
        (try_optimization_params env).1 = ⟨none, none, some (attemptSkipDir env)⟩) := by
  refine ⟨?_, ?_, ?_, ?_, ?_, ?_⟩
  · intro m sd fs log h
    simp [try_optimization_params, h]
  · intro sd fs log h
    simp [try_optimization_params, h]
  · intro h
    simp [try_optimization_params, tryBodyExit, h]
  · intro h1 h2 h3
    simp [try_optimization_params, tryBodyExit, h1, h2, h3, attemptSkipDir]
  · intro h1 h2 h3 h4 h5 h6 h7
    simp only [attemptFSAfterPrep, attemptSkipDir, attemptFrames] at h4 h5
    simp [try_optimization_params, tryBodyExit, h1, h2, h3, h4, h5, h6, h7,
      attemptSkipDir]
  · intro h1 h2 h3 h4 h5 h6 h7 h8 h9
    simp only [attemptFSAfterPrep, attemptSkipDir, attemptFrames] at h4 h5
    cases hag : env.cancelAfterGifski with
    | true =>
      simp [try_optimization_params, tryBodyExit, h1, h2, h3, h4, h5, h6, h7, h8, hag,
        attemptSkipDir, FS.addFile, FS.existsP]
    | false =>
      have h9' : env.cancelDuringGifsicle = true := by
        rcases h9 with h | h
        · rw [h] at hag
          exact Bool.noConfusion hag
        · exact h
      simp [try_optimization_params, tryBodyExit, h1, h2, h3, h4, h5, h6, h7, h8, hag,
        h9', attemptSkipDir, FS.addFile, FS.existsP]

/-- A fully specified concrete attempt environment used by witnesses. -/
def attemptEnvW : AttemptEnv :=
  { fs := ⟨[["t", "gif_conversion_temp"], ["t", "gif_conversion_temp", "frames_temp"]],
      [["t", "gif_conversion_temp", "frames_temp", "frame_0000.png"]]⟩,
    frames_dir := ["t", "gif_conversion_temp", "frames_temp"],
    params := ⟨100, 0, 0, ["t", "gif_conversion_temp", "batch_1", "attempt_0"]⟩,
    current_fps := 15, batch_id := 1, attempt_id := 0,
    lock_quality := false, lock_lossy := false, lock_frame_skip := false,
    scale_percent := 100, loop_count := 0, preserve_animated_alpha := false,
    frameWidth := 10, frameHeight := 10,
    copyOk := fun _ => true,
    cancelAtStart := true, cancelAfterPrepare := false, cancelDuringGifski := false,
    cancelAfterGifski := false, cancelDuringGifsicle := false,
    mkdirsFails := false, imageOpenFails := false,
    gifskiWritesOutput := true, gifsicleWritesOutput := true, optimizedSize := 100 }

/-- Witness for C7 at a concrete environment whose cancellation flag is set
at the start of the attempt. -/
theorem C7_attempt_failures_contained_witness :
    (try_optimization_params attemptEnvW).1 = ⟨none, none, none⟩ :=
  (C7_attempt_failures_contained attemptEnvW).2.2.1 rfl

/-! ### C3: the best-candidate replacement rule -/

theorem noteSkipDir_best (frames_dir : Path) (st : SearchState) (sd : Option Path) :
    (noteSkipDir frames_dir st sd).best = st.best := by
  cases sd with
  | none => rfl
  | some d =>
    simp only [noteSkipDir]
    split <;> rfl

theorem noteSkipDir_found (frames_dir : Path) (st : SearchState) (sd : Option Path) :
    (noteSkipDir frames_dir st sd).found_acceptable = st.found_acceptable := by
  cases sd with
  | none => rfl
  | some d =>
    simp only [noteSkipDir]
    split <;> rfl

/-- The acceptance test applied to a valid within-target candidate
(lines 2629-2630): accept when no best exists yet (`best_size` still
infinite) or the candidate is strictly closer to the target. -/
def acceptsCandidate (target : Nat) (best : Option (Nat × Path)) (s : Nat) : Bool :=
  match best with
  | none => true
  | some (b, _) => distT target s < distT target b

/-- C3: a valid candidate (finite size, existing file) whose size is within
the target replaces the best pair exactly when no best exists yet or its
distance to the target is strictly smaller than the current best's; a
candidate at equal distance keeps the earlier-found best; and a rejected
candidate leaves both the best pair and the acceptable flag unchanged. -/
theorem C3_best_replacement_rule (target : Nat) (ex : Path → Bool) (frames_dir : Path)
    (st : SearchState) (under : Bool) (r : AttemptResult) (s : Nat) (pth : Path)
    (hs : r.size = some s) (hp : r.path = some pth) (hex : ex pth = true)
    (hle : s ≤ target) :
    ((consumeOne target ex frames_dir st under r).1.best =
      (if acceptsCandidate target st.best s = true then some (s, pth) else st.best)) ∧
    (∀ b bp, st.best = some (b, bp) → distT target s = distT target b →
      (consumeOne target ex frames_dir st under r).1.best = st.best) ∧
    (acceptsCandidate target st.best s = false →
      (consumeOne target ex frames_dir st under r).1.best = st.best ∧
      (consumeOne target ex frames_dir st under r).1.found_acceptable =
        st.found_acceptable) := by
  obtain ⟨rs, rp, rsd⟩ := r
  simp only at hs hp
  subst hs; subst hp
  have hbest := noteSkipDir_best frames_dir st rsd
  have hfound := noteSkipDir_found frames_dir st rsd
  simp only [consumeOne, hex, hle, if_true]
  cases hb : (noteSkipDir frames_dir st rsd).best with
  | none =>
    rw [hbest] at hb
    refine ⟨?_, ?_, ?_⟩
    · simp only [acceptsCandidate, hb, if_true]
      split <;> rfl
    · intro b bp hbb _
      rw [hb] at hbb
      exact Option.noConfusion hbb
    · intro hacc
      rw [hb] at hacc
      simp [acceptsCandidate] at hacc
  | some bpair =>
    obtain ⟨b, bp⟩ := bpair
    rw [hbest] at hb
    have hacceq : acceptsCandidate target st.best s =
        decide (distT target s < distT target b) := by
      simp [acceptsCandidate, hb]
    by_cases hlt : distT target s < distT target b
    · have hd : acceptsCandidate target st.best s = true := by
        rw [hacceq]; exact decide_eq_true hlt
      refine ⟨?_, ?_, ?_⟩
      · simp only [hd, if_true, if_pos hlt]
        split <;> rfl
      · intro b' bp' hbb heq
        rw [hb] at hbb
        simp only [Option.some.injEq, Prod.mk.injEq] at hbb
        obtain ⟨h1, _⟩ := hbb
        subst h1
        omega
      · intro hacc
        rw [hd] at hacc
        exact Bool.noConfusion hacc
    · have hd : acceptsCandidate target st.best s = false := by
        rw [hacceq]; exact decide_eq_false hlt
      refine ⟨?_, ?_, ?_⟩
      · simp [hd, hlt, hbest]
      · intro b' bp' hbb heq
        simp [hlt, hbest]
      · intro _
        simp [hlt, hbest, hfound]

/-- Witness for C3: a valid 800-byte candidate against a 1024-byte target
and an empty best pair is accepted. -/
theorem C3_best_replacement_rule_witness :
    (consumeOne 1024 (fun _ => true) ["t", "gif_conversion_temp", "frames_temp"]
        ⟨none, false, []⟩ true ⟨some 800, some ["t", "c.gif"], none⟩).1.best =
      (if acceptsCandidate 1024 none 800 = true then some (800, ["t", "c.gif"])
       else none) :=
  (C3_best_replacement_rule 1024 (fun _ => true) _ ⟨none, false, []⟩ true
    ⟨some 800, some ["t", "c.gif"], none⟩ 800 ["t", "c.gif"] rfl rfl rfl
    (by decide)).1

/-- C8 witness: with one listed frame and every copy failing, the skip
directory is removed and the source directory returned. -/
theorem C8_amended_witness :
    (prepare_frames_with_skip ⟨[["t"], ["t", "f"]], [["t", "f", "a.png"]]⟩ ["t", "f"] 2 1 0
        (fun _ => false)).2 = ["t", "f"] ∧
      (prepare_frames_with_skip ⟨[["t"], ["t", "f"]], [["t", "f", "a.png"]]⟩ ["t", "f"] 2 1 0
        (fun _ => false)).1.existsP ["t", "frames_skip_2_batch_1_attempt_0"] = false :=
  (C8_amended ⟨[["t"], ["t", "f"]], [["t", "f", "a.png"]]⟩ ["t", "f"] 2 1 0 (fun _ => false)
    (by decide) (by decide)).2 (by decide) (fun _ => rfl)

/-! ### C9: frame-skip values constructed by the batch scheduler -/

/-- A fully specified concrete run environment with no cancellation, no
results, and no finalize effects, used by counterexamples and witnesses. -/
def runEnvW : RunEnv :=
  { desired_size := 1, input_parent := ["t"], input_stem := "vid",
    cancelTime := none, preLoopFails := false,
    tierResults := fun _ => [], ex := fun _ => false,
    use_imagemagick := false, polishResult := none, copyFails := false }

/-- C9 counterexample: in a run with no cancellation, the very first
attempt launched in batch 1 carries `frame_skip = 0` (the batch-1 table at
line 2558 is `'frame_skips': [0, 1]`), so not every constructed
`OptimizationParams` has `frame_skip ≥ 1`. -/
theorem C9_counterexample :
    ¬ (∀ tr ∈ (runConvert runEnvW).trace, ∀ p ∈ tr.launched, 1 ≤ p.frame_skip) := by
  decide

/-- Every parameter constructed by `fsLoop` draws its frame skip from the
supplied list. -/
theorem fsLoop_skip_mem (ct : Option Nat) (bd : Path) (q l : Int) (skips : List Int)
    (c t : Nat) : ∀ p ∈ (fsLoop ct bd q l skips c t).params, p.frame_skip ∈ skips := by
  induction skips generalizing c t with
  | nil => intro p hp; exact absurd hp (by simp [fsLoop])
  | cons s rest ih =>
    intro p hp
    simp only [fsLoop] at hp
    by_cases hc : cancelAt ct t = true
    · simp [hc] at hp
    · simp only [Bool.not_eq_true] at hc
      simp only [hc, Bool.false_eq_true, if_false, List.mem_cons] at hp
      rcases hp with hp | hp
      · subst hp; simp
      · exact List.mem_cons_of_mem _ (ih (c + 1) (t + 1) p hp)

/-- Every parameter constructed by `lossyLoop` draws its frame skip from the
supplied list. -/
theorem lossyLoop_skip_mem (ct : Option Nat) (bd : Path) (q : Int) (skips ls : List Int)
    (c t : Nat) : ∀ p ∈ (lossyLoop ct bd q skips ls c t).params, p.frame_skip ∈ skips := by
  induction ls generalizing c t with
  | nil => intro p hp; exact absurd hp (by simp [lossyLoop])
  | cons l rest ih =>
    intro p hp
    simp only [lossyLoop, List.mem_append] at hp
    rcases hp with hp | hp
    · exact fsLoop_skip_mem ct bd q l skips c t p hp
    · exact ih _ _ p hp

/-- Every parameter constructed by `qualityLoop` draws its frame skip from
the supplied list. -/
theorem qualityLoop_skip_mem (ct : Option Nat) (bd : Path) (lossies skips qs : List Int)
    (c t : Nat) :
    ∀ p ∈ (qualityLoop ct bd lossies skips qs c t).params, p.frame_skip ∈ skips := by
  induction qs generalizing c t with
  | nil => intro p hp; exact absurd hp (by simp [qualityLoop])
  | cons q rest ih =>
    intro p hp
    simp only [qualityLoop, List.mem_append] at hp
    rcases hp with hp | hp
    · exact lossyLoop_skip_mem ct bd q skips lossies c t p hp
    · exact ih _ _ p hp

/-- Every tier executed by the tier loop launches parameters built from the
frame-skip list of some batch in the supplied table. -/
theorem tierLoop_launched_skip (env : RunEnv) (bs : List (Nat × BatchSpec))
    (st : SearchState) (c t : Nat) :
    ∀ tr ∈ (tierLoop env bs st c t).trace, ∀ p ∈ tr.launched,
      ∃ ib ∈ bs, p.frame_skip ∈ ib.2.frame_skips := by
  induction bs generalizing st c t with
  | nil => intro tr htr; exact absurd htr (by simp [tierLoop])
  | cons ib rest ih =>
    obtain ⟨i, b⟩ := ib
    intro tr htr p hp
    simp only [tierLoop] at htr
    by_cases hc : cancelAt env.cancelTime t = true
    · simp [hc] at htr
    · simp only [Bool.not_eq_true] at hc
      simp only [hc, Bool.false_eq_true, if_false] at htr
      by_cases hc2 : cancelAt env.cancelTime
          (qualityLoop env.cancelTime (batchDir env i) b.lossies b.frame_skips b.qualities
            c (t + 1)).t = true
      · simp only [hc2, if_true, List.mem_singleton] at htr
        subst htr
        exact ⟨(i, b), by simp,
          qualityLoop_skip_mem _ _ _ _ _ _ _ p (by simpa using hp)⟩
      · simp only [Bool.not_eq_true] at hc2
        simp only [hc2, Bool.false_eq_true, if_false] at htr
        split at htr
        · simp only [List.mem_singleton] at htr
          subst htr
          exact ⟨(i, b), by simp,
            qualityLoop_skip_mem _ _ _ _ _ _ _ p (by simpa using hp)⟩
        · split at htr
          · simp only [List.mem_singleton] at htr
            subst htr
            exact ⟨(i, b), by simp,
              qualityLoop_skip_mem _ _ _ _ _ _ _ p (by simpa using hp)⟩
          · simp only [List.mem_cons] at htr
            rcases htr with htr | htr
            · subst htr
              exact ⟨(i, b), by simp,
                qualityLoop_skip_mem _ _ _ _ _ _ _ p (by simpa using hp)⟩
            · obtain ⟨ib', hib', hmem⟩ := ih _ _ _ tr htr p hp
              exact ⟨ib', List.mem_cons_of_mem _ hib', hmem⟩

/-- C9 as amended: every `OptimizationParams` constructed by the batch
scheduler during the tier search has `frame_skip ≥ 0`; the value 0 occurs
(batch 1's table row is `[0, 1]`) and behaves identically to 1. -/
theorem C9_amended (env : RunEnv) :
    ∀ tr ∈ (runConvert env).trace, ∀ p ∈ tr.launched, 0 ≤ p.frame_skip := by
  intro tr htr p hp
  have htrace : (runConvert env).trace =
      (tierLoop env (List.enumFrom 1 batch_params) ⟨none, false, []⟩ 0 1).trace ∨
      (runConvert env).trace = [] := by
    simp only [runConvert]
    split
    · exact Or.inr rfl
    · split
      · exact Or.inr rfl
      · exact Or.inl rfl
  rcases htrace with htrace | htrace
  · rw [htrace] at htr
    obtain ⟨ib, hib, hmem⟩ :=
      tierLoop_launched_skip env (List.enumFrom 1 batch_params) ⟨none, false, []⟩ 0 1
        tr htr p hp
    have : ib.2 ∈ batch_params := by
      have := List.enumFrom_map_snd 1 batch_params
      have hsnd : ib.2 ∈ (List.enumFrom 1 batch_params).map Prod.snd :=
        List.mem_map_of_mem Prod.snd hib
      rwa [this] at hsnd
    simp only [batch_params, List.mem_cons, List.not_mem_nil, or_false] at this
    rcases this with h | h | h <;> rw [h] at hmem <;>
      simp only [List.mem_cons, List.not_mem_nil, or_false] at hmem
    · rcases hmem with h' | h' <;> omega
    · rcases hmem with h' | h' <;> omega
    · rcases hmem with h' | h' | h' <;> omega
  · rw [htrace] at htr
    exact absurd htr (List.not_mem_nil tr)

/-- Witness for C9 at the first attempt of the first tier of a concrete
run. -/
theorem C9_amended_witness :
    0 ≤ ((((runConvert runEnvW).trace.headD ⟨0, [], [], true, none⟩).launched.headD
      ⟨0, 0, 0, []⟩).frame_skip) :=
  C9_amended runEnvW ((runConvert runEnvW).trace.headD ⟨0, [], [], true, none⟩) (by decide)
    (((runConvert runEnvW).trace.headD ⟨0, [], [], true, none⟩).launched.headD
      ⟨0, 0, 0, []⟩) (by decide)

/-! ### C5: a cancelled run never finalizes -/

theorem cancelAt_mono {ct : Option Nat} {t t' : Nat} (h : cancelAt ct t = true)
    (hle : t ≤ t') : cancelAt ct t' = true := by
  cases ct with
  | none => simp [cancelAt] at h
  | some k =>
    simp only [cancelAt, decide_eq_true_eq] at h ⊢
    omega

/-- C5: if the cancellation flag is set by the time of the run's final
cancellation check (`tFinal` — the flag is monotone, so any earlier setting
implies this), the run neither performs the winning-candidate copy/polish
step nor reports a found result. -/
theorem C5_cancelled_never_found (env : RunEnv)
    (h : cancelAt env.cancelTime (runConvert env).tFinal = true) :
    (∀ p s, (runConvert env).outcome ≠ RunOutcome.found p s) ∧
      (runConvert env).finalized = false := by
  simp only [runConvert] at h ⊢
  by_cases h0 : cancelAt env.cancelTime 0 = true
  · simp [h0]
  · simp only [h0, Bool.false_eq_true, if_false] at h ⊢
    by_cases hpre : env.preLoopFails = true
    · simp only [hpre, if_true] at h
      exact absurd h h0
    · simp only [hpre, Bool.false_eq_true, if_false] at h ⊢
      simp only [finalizeOutcome]
      split
      · simp
      · split <;> simp [h]

/-! ### C1: the size bound of a found result -/

/-- The recorded best pair never exceeds the target. -/
def bestWithin (target : Nat) (st : SearchState) : Prop :=
  ∀ b bp, st.best = some (b, bp) → b ≤ target

/-- One consumption step either keeps the best pair or installs a valid
candidate within the target. -/
theorem consumeOne_best_cases (target : Nat) (ex : Path → Bool) (fd : Path)
    (st : SearchState) (under : Bool) (r : AttemptResult) :
    (consumeOne target ex fd st under r).1.best = st.best ∨
    ∃ s pth, r.size = some s ∧ r.path = some pth ∧ s ≤ target ∧
      (consumeOne target ex fd st under r).1.best = some (s, pth) := by
  obtain ⟨rs, rp, rsd⟩ := r
  have hbest := noteSkipDir_best fd st rsd
  cases rs with
  | none => exact Or.inl (by simpa [consumeOne] using hbest)
  | some s =>
    cases rp with
    | none => exact Or.inl (by simpa [consumeOne] using hbest)
    | some pth =>
      simp only [consumeOne]
      by_cases hex : ex pth = true
      · simp only [hex, if_true]
        by_cases hle : s ≤ target
        · simp only [hle, if_true]
          cases hb : (noteSkipDir fd st rsd).best with
          | none =>
            right
            refine ⟨s, pth, rfl, rfl, hle, ?_⟩
            by_cases hacc : acceptableClose target s = true <;> simp [hacc]
          | some bpair =>
            obtain ⟨b, bp⟩ := bpair
            by_cases hlt : distT target s < distT target b
            · right
              refine ⟨s, pth, rfl, rfl, hle, ?_⟩
              by_cases hacc : acceptableClose target s = true <;> simp [hlt, hacc]
            · left
              simp [hlt, hbest]
        · simp only [hle, if_false]
          exact Or.inl hbest
      · simp only [hex, Bool.false_eq_true, if_false]
        exact Or.inl hbest

theorem consumeOne_bestWithin (target : Nat) (ex : Path → Bool) (fd : Path)
    (st : SearchState) (under : Bool) (r : AttemptResult)
    (h : bestWithin target st) :
    bestWithin target (consumeOne target ex fd st under r).1 := by
  intro b bp hb
  rcases consumeOne_best_cases target ex fd st under r with hc | ⟨s, pth, _, _, hle, hc⟩
  · exact h b bp (hc ▸ hb)
  · rw [hc] at hb
    simp only [Option.some.injEq, Prod.mk.injEq] at hb
    omega

theorem consumeLoop_bestWithin (target : Nat) (ex : Path → Bool) (fd : Path)
    (ct : Option Nat) (l : List AttemptResult) (st : SearchState) (under : Bool)
    (t : Nat) (h : bestWithin target st) :
    bestWithin target (consumeLoop target ex fd ct l st under t).st := by
  induction l generalizing st under t with
  | nil => exact h
  | cons r rs ih =>
    simp only [consumeLoop]
    split
    · exact h
    · split
      · exact consumeOne_bestWithin target ex fd st under r h
      · exact ih _ _ _ (consumeOne_bestWithin target ex fd st under r h)

theorem tierLoop_bestWithin (env : RunEnv) (bs : List (Nat × BatchSpec))
    (st : SearchState) (c t : Nat) (h : bestWithin (targetBytes env) st) :
    bestWithin (targetBytes env) (tierLoop env bs st c t).st := by
  induction bs generalizing st c t with
  | nil => exact h
  | cons ib rest ih =>
    obtain ⟨i, b⟩ := ib
    simp only [tierLoop]
    split
    · exact h
    · split
      · exact h
      · have hco : bestWithin (targetBytes env)
            (consumeLoop (targetBytes env) env.ex (framesDir env) env.cancelTime
              (env.tierResults i) st true
              ((qualityLoop env.cancelTime (batchDir env i) b.lossies b.frame_skips
                b.qualities c (t + 1)).t + 1)).st :=
          consumeLoop_bestWithin _ _ _ _ _ _ _ _ h
        have hco' : bestWithin (targetBytes env)
            { (consumeLoop (targetBytes env) env.ex (framesDir env) env.cancelTime
                (env.tierResults i) st true
                ((qualityLoop env.cancelTime (batchDir env i) b.lossies b.frame_skips
                  b.qualities c (t + 1)).t + 1)).st with
              cleanup := addCleanup (consumeLoop (targetBytes env) env.ex (framesDir env)
                env.cancelTime (env.tierResults i) st true
                ((qualityLoop env.cancelTime (batchDir env i) b.lossies b.frame_skips
                  b.qualities c (t + 1)).t + 1)).st.cleanup (batchDir env i) } :=
          fun b' bp' hb' => hco b' bp' hb'
        split
        · exact hco'
        · split
          · exact hco'
          · exact ih _ _ _ hco'

/-- The final best pair of a run never exceeds the target. -/
theorem runConvert_bestWithin (env : RunEnv) :
    ∀ b bp, (runConvert env).best = some (b, bp) → b ≤ targetBytes env := by
  intro b bp hb
  simp only [runConvert] at hb
  by_cases h0 : cancelAt env.cancelTime 0 = true
  · simp [h0] at hb
  · simp only [h0, Bool.false_eq_true, if_false] at hb
    by_cases hpre : env.preLoopFails = true
    · simp [hpre] at hb
    · simp only [hpre, Bool.false_eq_true, if_false] at hb
      exact tierLoop_bestWithin env _ _ _ _ (fun _ _ h => by simp at h) b bp hb

/-- A fully specified concrete run environment whose single valid candidate
(800 bytes against a 1024-byte target) is then inflated to 2000 bytes by
the enabled polish pass. -/
def runEnvC1 : RunEnv :=
  { desired_size := 1, input_parent := ["t"], input_stem := "vid",
    cancelTime := none, preLoopFails := false,
    tierResults := fun i => if i = 1 then [⟨some 800, some ["t", "c.gif"], none⟩] else [],
    ex := fun p => p == ["t", "c.gif"],
    use_imagemagick := true, polishResult := some 2000, copyFails := false }

/-- C1 counterexample: a run that terminates with a found (saved) result of
2000 bytes against a target of 1024 bytes — the optional polish pass
(`apply_imagemagick_optimization`) imposes no size bound and the finalize
code at lines 2683-2686 saves the over-target file with only a warning, so
the claimed bound does not survive the polish pass. -/
theorem C1_counterexample :
    (runConvert runEnvC1).outcome = RunOutcome.found ["t", "vid_optimized.gif"] 2000 ∧
      ¬(2000 ≤ targetBytes runEnvC1) := by
  constructor
  · decide
  · decide

/-- C1 as amended: candidates are only ever recorded with size at most the
target, so when the optional polish pass is disabled the finalize step
copies the winning file byte-for-byte and every found result's size is at
most the target; with the polish pass enabled the final size is whatever
the external polish tool produces and may exceed the target (the run then
warns but still saves the file). -/
theorem C1_amended (env : RunEnv) (p : Path) (s : Nat)
    (hpolish : env.use_imagemagick = false)
    (hfound : (runConvert env).outcome = RunOutcome.found p s) :
    s ≤ targetBytes env := by
  have hbw : bestWithin (targetBytes env)
      (tierLoop env (List.enumFrom 1 batch_params) ⟨none, false, []⟩ 0 1).st :=
    tierLoop_bestWithin env _ _ _ _ (fun _ _ h => by simp at h)
  simp only [runConvert] at hfound
  by_cases h0 : cancelAt env.cancelTime 0 = true
  · simp [h0] at hfound
  · simp only [h0, Bool.false_eq_true, if_false] at hfound
    by_cases hpre : env.preLoopFails = true
    · simp [hpre] at hfound
    · simp only [hpre, Bool.false_eq_true, if_false] at hfound
      simp only [finalizeOutcome] at hfound
      split at hfound
      · simp at hfound
      · split at hfound
        next x b bp heq =>
          by_cases hex : env.ex bp = true
          · simp only [hex, if_true] at hfound
            by_cases hct : cancelAt env.cancelTime
                (tierLoop env (List.enumFrom 1 batch_params) ⟨none, false, []⟩ 0 1).t = true
            · simp [hct] at hfound
            · simp only [hct, Bool.false_eq_true, if_false, hpolish] at hfound
              by_cases hcf : env.copyFails = true
              · simp [hcf] at hfound
              · simp only [hcf, Bool.false_eq_true, if_false] at hfound
                simp only [RunOutcome.found.injEq] at hfound
                obtain ⟨_, hs⟩ := hfound
                subst hs
                exact hbw _ bp heq
          · simp only [hex, Bool.false_eq_true, if_false] at hfound
            split at hfound <;> simp at hfound
        next x heq =>
          split at hfound <;> simp at hfound

/-- Concrete environment whose cancellation flag is set from time 0. -/
def runEnvC5 : RunEnv :=
  { runEnvW with cancelTime := some 0 }

/-- Witness for C5 at a concrete cancelled run. -/
theorem C5_cancelled_never_found_witness :
    (runConvert runEnvC5).outcome ≠ RunOutcome.found ["t", "vid_optimized.gif"] 500 ∧
      (runConvert runEnvC5).finalized = false :=
  ⟨(C5_cancelled_never_found runEnvC5 (by decide)).1 ["t", "vid_optimized.gif"] 500,
   (C5_cancelled_never_found runEnvC5 (by decide)).2⟩

/-- The C1 counterexample environment with the polish pass disabled. -/
def runEnvC1b : RunEnv :=
  { runEnvC1 with use_imagemagick := false }

/-- Witness for C1: with the polish pass disabled, the found 800-byte result
is within the 1024-byte target. -/
theorem C1_amended_witness : 800 ≤ targetBytes runEnvC1b :=
  C1_amended runEnvC1b ["t", "vid_optimized.gif"] 800 rfl (by decide)

/-! ### C6: order-independence of the best-result selection -/

/-- The best-result comparison applied to a stream of results, with no
cancellation or short-circuit: `consumeOne` folded over the list. -/
def foldConsume (target : Nat) (ex : Path → Bool) (fd : Path)
    (l : List AttemptResult) (st : SearchState) : SearchState :=
  l.foldl (fun st r => (consumeOne target ex fd st true r).1) st

/-- The size a result contributes to the selection: its size when it is
valid (finite, truthy existing path) and within the target, nothing
otherwise. -/
def sizeEntry (target : Nat) (ex : Path → Bool) (r : AttemptResult) : Option Nat :=
  match r.size, r.path with
  | some s, some p => if ex p = true ∧ s ≤ target then some s else none
  | _, _ => none

/-- The sizes of the valid within-target candidates of a stream. -/
def validSizes (target : Nat) (ex : Path → Bool) (l : List AttemptResult) : List Nat :=
  l.filterMap (sizeEntry target ex)

/-- Maximum on `Option Nat` with `none` as identity. -/
def omax : Option Nat → Option Nat → Option Nat
  | none, y => y
  | some a, none => some a
  | some a, some b => some (max a b)

/-- Maximum of a list of sizes. -/
def maxList : List Nat → Option Nat
  | [] => none
  | s :: vs => omax (some s) (maxList vs)

theorem omax_none_right (x : Option Nat) : omax x none = x := by cases x <;> rfl

theorem omax_assoc (x y z : Option Nat) : omax (omax x y) z = omax x (omax y z) := by
  cases x <;> cases y <;> cases z <;> simp [omax, Nat.max_assoc]

theorem omax_comm (x y : Option Nat) : omax x y = omax y x := by
  cases x <;> cases y <;> simp [omax, Nat.max_comm]

/-- One consumption step pushes the candidate's contributed size into the
running maximum, provided the recorded best is within the target. -/
theorem consumeOne_best_omax (target : Nat) (ex : Path → Bool) (fd : Path)
    (st : SearchState) (r : AttemptResult) (h : bestWithin target st) :
    ((consumeOne target ex fd st true r).1.best).map Prod.fst =
      omax (st.best.map Prod.fst) (sizeEntry target ex r) := by
  obtain ⟨rs, rp, rsd⟩ := r
  have hbest := noteSkipDir_best fd st rsd
  cases rs with
  | none =>
    simp only [sizeEntry, omax_none_right]
    simpa [consumeOne] using congrArg (Option.map Prod.fst) hbest
  | some s =>
    cases rp with
    | none =>
      simp only [sizeEntry, omax_none_right]
      simpa [consumeOne] using congrArg (Option.map Prod.fst) hbest
    | some pth =>
      simp only [consumeOne, sizeEntry]
      by_cases hex : ex pth = true
      · simp only [hex, if_true, true_and]
        by_cases hle : s ≤ target
        · simp only [hle, if_true]
          cases hb : (noteSkipDir fd st rsd).best with
          | none =>
            have hsb : st.best = none := hbest ▸ hb
            rw [hsb]
            by_cases hacc : acceptableClose target s = true <;> simp [hacc, omax]
          | some bpair =>
            obtain ⟨b, bp⟩ := bpair
            have hsb : st.best = some (b, bp) := hbest ▸ hb
            have hbt : b ≤ target := h b bp hsb
            rw [hsb]
            by_cases hlt : distT target s < distT target b
            · have hmax : max b s = s := by
                have : b < s := by
                  simp only [distT] at hlt
                  omega
                omega
              by_cases hacc : acceptableClose target s = true <;>
                simp [hlt, hacc, omax, hmax]
            · have hmax : max b s = b := by
                have : s ≤ b := by
                  simp only [distT] at hlt
                  omega
                omega
              simp only [if_neg hlt]
              simp [omax, hmax, congrArg (Option.map Prod.fst) hbest, hsb]
        · simp only [hle, and_false, if_false]
          simp only [omax_none_right]
          simpa using congrArg (Option.map Prod.fst) hbest
      · simp only [hex, Bool.false_eq_true, false_and, if_false, omax_none_right]
        simpa using congrArg (Option.map Prod.fst) hbest

/-- The fold of the best-result comparison computes the running maximum of
the valid within-target sizes. -/
theorem foldConsume_best (target : Nat) (ex : Path → Bool) (fd : Path)
    (l : List AttemptResult) (st : SearchState) (h : bestWithin target st) :
    ((foldConsume target ex fd l st).best).map Prod.fst =
      omax (st.best.map Prod.fst) (maxList (validSizes target ex l)) := by
  induction l generalizing st with
  | nil => simp [foldConsume, validSizes, maxList, omax_none_right]
  | cons r rs ih =>
    have hstep := consumeOne_best_omax target ex fd st r h
    have hinv := consumeOne_bestWithin target ex fd st true r h
    have hfold : foldConsume target ex fd (r :: rs) st =
        foldConsume target ex fd rs (consumeOne target ex fd st true r).1 := rfl
    rw [hfold, ih _ hinv, hstep, omax_assoc]
    congr 1
    simp only [validSizes, List.filterMap_cons]
    cases he : sizeEntry target ex r with
    | none => simp [maxList, omax]
    | some s => simp [maxList]

theorem maxList_perm {l₁ l₂ : List Nat} (h : l₁.Perm l₂) : maxList l₁ = maxList l₂ := by
  induction h with
  | nil => rfl
  | cons x _ ih => simp [maxList, ih]
  | swap x y l =>
    simp only [maxList, ← omax_assoc]
    rw [omax_comm (some y) (some x)]
  | trans _ _ ih₁ ih₂ => exact ih₁.trans ih₂

theorem maxList_eq_none (l : List Nat) : maxList l = none ↔ l = [] := by
  cases l with
  | nil => simp [maxList]
  | cons a as =>
    simp only [maxList]
    constructor
    · intro h
      cases hmm : maxList as <;> rw [hmm] at h <;> simp [omax] at h
    · intro h
      exact List.noConfusion h

theorem maxList_spec (l : List Nat) (m : Nat) (h : maxList l = some m) :
    m ∈ l ∧ ∀ x ∈ l, x ≤ m := by
  induction l generalizing m with
  | nil => exact Option.noConfusion h
  | cons s vs ih =>
    simp only [maxList] at h
    cases hm : maxList vs with
    | none =>
      rw [hm, omax_none_right] at h
      obtain rfl : s = m := Option.some.inj h
      have hvs : vs = [] := (maxList_eq_none vs).mp hm
      subst hvs
      refine ⟨List.mem_cons_self _ _, ?_⟩
      intro x hx
      rcases List.mem_cons.mp hx with rfl | hx
      · exact le_refl _
      · simp at hx
    | some m' =>
      rw [hm] at h
      simp only [omax, Option.some.injEq] at h
      obtain ⟨hmem, hbound⟩ := ih m' hm
      refine ⟨?_, ?_⟩
      · by_cases hcmp : s ≤ m'
        · have : max s m' = m' := by omega
          rw [← h, this]
          exact List.mem_cons_of_mem _ hmem
        · have : max s m' = s := by omega
          rw [← h, this]
          exact List.mem_cons_self _ _
      · intro x hx
        rcases List.mem_cons.mp hx with rfl | hx
        · omega
        · have := hbound x hx
          omega

theorem validSizes_le_target (target : Nat) (ex : Path → Bool)
    (l : List AttemptResult) : ∀ x ∈ validSizes target ex l, x ≤ target := by
  intro x hx
  simp only [validSizes, List.mem_filterMap] at hx
  obtain ⟨r, _, he⟩ := hx
  obtain ⟨rs, rp, rsd⟩ := r
  cases rs <;> cases rp <;> simp only [sizeEntry] at he
  · exact Option.noConfusion he
  · exact Option.noConfusion he
  · exact Option.noConfusion he
  · split at he
    · next hcond =>
        obtain rfl : _ = x := Option.some.inj he
        exact hcond.2
    · exact Option.noConfusion he

/-- C6: feeding the best-result comparison the same finite set of results
in any order yields the same final best size, namely the one at minimal
`|target - size|` among the valid candidates with size at most the target
(for such candidates the distance is `target - size`, so the minimum
distance is attained at the maximal size). -/
theorem C6_selection_order_independent (target : Nat) (ex : Path → Bool) (fd : Path)
    (l₁ l₂ : List AttemptResult) (h : l₁.Perm l₂) :
    ((foldConsume target ex fd l₁ ⟨none, false, []⟩).best).map Prod.fst =
      ((foldConsume target ex fd l₂ ⟨none, false, []⟩).best).map Prod.fst ∧
    ((foldConsume target ex fd l₁ ⟨none, false, []⟩).best).map Prod.fst =
      maxList (validSizes target ex l₁) ∧
    (∀ s, ((foldConsume target ex fd l₁ ⟨none, false, []⟩).best).map Prod.fst = some s →
      s ∈ validSizes target ex l₁ ∧
        ∀ x ∈ validSizes target ex l₁, distT target s ≤ distT target x) := by
  have h0 : bestWithin target (⟨none, false, []⟩ : SearchState) := by
    intro b bp hb
    simp at hb
  have hc₁ := foldConsume_best target ex fd l₁ _ h0
  have hc₂ := foldConsume_best target ex fd l₂ _ h0
  simp only [Option.map_none'] at hc₁ hc₂
  have hperm : maxList (validSizes target ex l₁) = maxList (validSizes target ex l₂) :=
    maxList_perm (List.Perm.filterMap _ h)
  refine ⟨?_, ?_, ?_⟩
  · rw [hc₁, hc₂, hperm]
  · rw [hc₁]
    rfl
  · intro s hs
    rw [hc₁] at hs
    have hs' : maxList (validSizes target ex l₁) = some s := hs
    obtain ⟨hmem, hbound⟩ := maxList_spec _ _ hs'
    refine ⟨hmem, ?_⟩
    intro x hx
    have hxle := validSizes_le_target target ex l₁ x hx
    have hsle := validSizes_le_target target ex l₁ s hmem
    have := hbound x hx
    simp only [distT]
    omega

/-- Witness for C6 at two concrete reversed result streams. -/
theorem C6_selection_order_independent_witness :
    ((foldConsume 1024 (fun _ => true) ["t"]
        [⟨some 800, some ["a"], none⟩, ⟨some 900, some ["b"], none⟩]
        ⟨none, false, []⟩).best).map Prod.fst =
      ((foldConsume 1024 (fun _ => true) ["t"]
        [⟨some 900, some ["b"], none⟩, ⟨some 800, some ["a"], none⟩]
        ⟨none, false, []⟩).best).map Prod.fst :=
  (C6_selection_order_independent 1024 (fun _ => true) ["t"] _ _ (by decide)).1

/-! ### C4: the all-under-target early tier exit -/

/-- A result is valid when its size is finite, its path truthy, and the
file exists (line 2627). -/
def validResult (ex : Path → Bool) (r : AttemptResult) : Bool :=
  match r.size, r.path with
  | some _, some p => ex p
  | _, _ => false

/-- A result that is valid and strictly over the target — exactly the case
that clears `batch_results_under_target` (lines 2639-2640). -/
def overTarget (target : Nat) (ex : Path → Bool) (r : AttemptResult) : Bool :=
  match r.size, r.path with
  | some s, some p => ex p && decide (target < s)
  | _, _ => false

/-- The under flag after one consumption step: cleared exactly by a valid
over-target result. -/
theorem consumeOne_under_eq (target : Nat) (ex : Path → Bool) (fd : Path)
    (st : SearchState) (under : Bool) (r : AttemptResult) :
    (consumeOne target ex fd st under r).2.1 =
      (under && !(overTarget target ex r)) := by
  obtain ⟨rs, rp, rsd⟩ := r
  cases rs with
  | none => simp [consumeOne, overTarget]
  | some s =>
    cases rp with
    | none => simp [consumeOne, overTarget]
    | some pth =>
      simp only [consumeOne, overTarget]
      by_cases hex : ex pth = true
      · simp only [hex, if_true, Bool.true_and]
        by_cases hle : s ≤ target
        · have : ¬ target < s := by omega
          simp only [hle, if_true, decide_eq_false this, Bool.not_false, Bool.and_true]
          cases hb : (noteSkipDir fd st rsd).best with
          | none =>
            by_cases hacc : acceptableClose target s = true <;> simp [hacc]
          | some bpair =>
            obtain ⟨b, bp⟩ := bpair
            by_cases hlt : distT target s < distT target b
            · by_cases hacc : acceptableClose target s = true <;> simp [hlt, hacc]
            · simp [hlt]
        · have : target < s := by omega
          simp [hle, decide_eq_true this]
      · simp [hex]

/-- The acceptable-break flag raised by one consumption step also raises
`found_acceptable`; without it the flag is preserved. -/
theorem consumeOne_found_eq (target : Nat) (ex : Path → Bool) (fd : Path)
    (st : SearchState) (under : Bool) (r : AttemptResult) :
    (consumeOne target ex fd st under r).1.found_acceptable =
      (st.found_acceptable || (consumeOne target ex fd st under r).2.2) := by
  obtain ⟨rs, rp, rsd⟩ := r
  have hfound := noteSkipDir_found fd st rsd
  cases rs with
  | none => simp [consumeOne, hfound]
  | some s =>
    cases rp with
    | none => simp [consumeOne, hfound]
    | some pth =>
      simp only [consumeOne]
      by_cases hex : ex pth = true
      · simp only [hex, if_true]
        by_cases hle : s ≤ target
        · simp only [hle, if_true]
          cases hb : (noteSkipDir fd st rsd).best with
          | none =>
            by_cases hacc : acceptableClose target s = true <;> simp [hacc, hfound]
          | some bpair =>
            obtain ⟨b, bp⟩ := bpair
            by_cases hlt : distT target s < distT target b
            · by_cases hacc : acceptableClose target s = true <;> simp [hlt, hacc, hfound]
            · simp [hlt, hfound]
        · simp [hle, hfound]
      · simp [hex, hfound]

/-- A valid within-target result always leaves a recorded best pair. -/
theorem consumeOne_sets_best (target : Nat) (ex : Path → Bool) (fd : Path)
    (st : SearchState) (under : Bool) (r : AttemptResult) (s : Nat) (pth : Path)
    (hs : r.size = some s) (hp : r.path = some pth) (hex : ex pth = true)
    (hle : s ≤ target) :
    (consumeOne target ex fd st under r).1.best.isSome = true := by
  obtain ⟨rs, rp, rsd⟩ := r
  simp only at hs hp
  subst hs; subst hp
  have hbest := noteSkipDir_best fd st rsd
  simp only [consumeOne, hex, hle, if_true]
  cases hb : (noteSkipDir fd st rsd).best with
  | none =>
    by_cases hacc : acceptableClose target s = true <;> simp [hacc]
  | some bpair =>
    obtain ⟨b, bp⟩ := bpair
    by_cases hlt : distT target s < distT target b
    · by_cases hacc : acceptableClose target s = true <;> simp [hlt, hacc]
    · simp [hlt, hb]

/-- A recorded best pair survives any consumption step. -/
theorem consumeOne_best_isSome_mono (target : Nat) (ex : Path → Bool) (fd : Path)
    (st : SearchState) (under : Bool) (r : AttemptResult)
    (h : st.best.isSome = true) :
    (consumeOne target ex fd st under r).1.best.isSome = true := by
  rcases consumeOne_best_cases target ex fd st under r with hc | ⟨s, pth, _, _, _, hc⟩
  · rw [hc]; exact h
  · rw [hc]; rfl

/-- The consumption loop's final under flag: the entry flag conjoined with
the absence of valid over-target results among the consumed ones. -/
theorem consumeLoop_under_eq (target : Nat) (ex : Path → Bool) (fd : Path)
    (ct : Option Nat) (l : List AttemptResult) (st : SearchState) (under : Bool)
    (t : Nat) :
    (consumeLoop target ex fd ct l st under t).under =
      (under && (consumeLoop target ex fd ct l st under t).consumed.all
        (fun r => !(overTarget target ex r))) := by
  induction l generalizing st under t with
  | nil => simp [consumeLoop]
  | cons r rs ih =>
    simp only [consumeLoop]
    split
    · simp
    · split
      · simp only [List.all_cons, List.all_nil, Bool.and_true]
        exact consumeOne_under_eq target ex fd st under r
      · simp only [List.all_cons]
        rw [ih]
        rw [consumeOne_under_eq target ex fd st under r]
        cases under <;> cases overTarget target ex r <;> simp

/-- A cancellation break inside the consumption loop implies the flag is
set at the loop's final time. -/
theorem consumeLoop_cons_cancel (target : Nat) (ex : Path → Bool) (fd : Path)
    (ct : Option Nat) (r : AttemptResult) (rs : List AttemptResult)
    (st : SearchState) (under : Bool) (t : Nat) (hc : cancelAt ct t = true) :
    consumeLoop target ex fd ct (r :: rs) st under t = ⟨st, under, t + 1, [], true⟩ := by
  simp [consumeLoop, hc]

theorem consumeLoop_cons_brk (target : Nat) (ex : Path → Bool) (fd : Path)
    (ct : Option Nat) (r : AttemptResult) (rs : List AttemptResult)
    (st : SearchState) (under : Bool) (t : Nat) (hc : cancelAt ct t = false)
    (hbrk : (consumeOne target ex fd st under r).2.2 = true) :
    consumeLoop target ex fd ct (r :: rs) st under t =
      ⟨(consumeOne target ex fd st under r).1,
        (consumeOne target ex fd st under r).2.1, t + 1, [r], false⟩ := by
  simp [consumeLoop, hc, hbrk]

theorem consumeLoop_cons_step (target : Nat) (ex : Path → Bool) (fd : Path)
    (ct : Option Nat) (r : AttemptResult) (rs : List AttemptResult)
    (st : SearchState) (under : Bool) (t : Nat) (hc : cancelAt ct t = false)
    (hbrk : (consumeOne target ex fd st under r).2.2 = false) :
    consumeLoop target ex fd ct (r :: rs) st under t =
      { consumeLoop target ex fd ct rs (consumeOne target ex fd st under r).1
          (consumeOne target ex fd st under r).2.1 (t + 1) with
        consumed := r :: (consumeLoop target ex fd ct rs
          (consumeOne target ex fd st under r).1
          (consumeOne target ex fd st under r).2.1 (t + 1)).consumed } := by
  simp [consumeLoop, hc, hbrk]

theorem consumeLoop_cancelBreak (target : Nat) (ex : Path → Bool) (fd : Path)
    (ct : Option Nat) (l : List AttemptResult) (st : SearchState) (under : Bool)
    (t : Nat) (h : (consumeLoop target ex fd ct l st under t).cancelBreak = true) :
    cancelAt ct (consumeLoop target ex fd ct l st under t).t = true := by
  induction l generalizing st under t with
  | nil => simp [consumeLoop] at h
  | cons r rs ih =>
    by_cases hc : cancelAt ct t = true
    · rw [consumeLoop_cons_cancel target ex fd ct r rs st under t hc]
      exact cancelAt_mono hc (Nat.le_succ t)
    · have hc' : cancelAt ct t = false := by
        cases hx : cancelAt ct t
        · rfl
        · exact absurd hx hc
      by_cases hbrk : (consumeOne target ex fd st under r).2.2 = true
      · rw [consumeLoop_cons_brk target ex fd ct r rs st under t hc' hbrk] at h
        exact absurd h (by simp)
      · have hbrk' : (consumeOne target ex fd st under r).2.2 = false := by
          cases hx : (consumeOne target ex fd st under r).2.2
          · rfl
          · exact absurd hx hbrk
        rw [consumeLoop_cons_step target ex fd ct r rs st under t hc' hbrk'] at h ⊢
        exact ih _ _ _ h

/-- Without a cancellation break and without an acceptable break (the flag
stays down), the consumption loop consumes the whole result list. -/
theorem consumeLoop_consumed_all (target : Nat) (ex : Path → Bool) (fd : Path)
    (ct : Option Nat) (l : List AttemptResult) (st : SearchState) (under : Bool)
    (t : Nat) (hentry : st.found_acceptable = false)
    (hcb : (consumeLoop target ex fd ct l st under t).cancelBreak = false)
    (hfd : (consumeLoop target ex fd ct l st under t).st.found_acceptable = false) :
    (consumeLoop target ex fd ct l st under t).consumed = l := by
  induction l generalizing st under t with
  | nil => rfl
  | cons r rs ih =>
    by_cases hc : cancelAt ct t = true
    · rw [consumeLoop_cons_cancel target ex fd ct r rs st under t hc] at hcb
      exact absurd hcb (by simp)
    · have hc' : cancelAt ct t = false := by
        cases hx : cancelAt ct t
        · rfl
        · exact absurd hx hc
      by_cases hbrk : (consumeOne target ex fd st under r).2.2 = true
      · exfalso
        rw [consumeLoop_cons_brk target ex fd ct r rs st under t hc' hbrk] at hfd
        have hfd' : (consumeOne target ex fd st under r).1.found_acceptable = false := hfd
        have heq := consumeOne_found_eq target ex fd st under r
        rw [hfd', hentry, hbrk] at heq
        simp at heq
      · have hbrk' : (consumeOne target ex fd st under r).2.2 = false := by
          cases hx : (consumeOne target ex fd st under r).2.2
          · rfl
          · exact absurd hx hbrk
        rw [consumeLoop_cons_step target ex fd ct r rs st under t hc' hbrk'] at hcb hfd ⊢
        have hentry' : (consumeOne target ex fd st under r).1.found_acceptable = false := by
          have heq := consumeOne_found_eq target ex fd st under r
          rw [hentry, hbrk'] at heq
          simpa using heq
        exact congrArg (List.cons r) (ih _ _ _ hentry' hcb hfd)

/-- A consumed valid within-target result guarantees a recorded best at the
loop's end. -/
theorem bool_eq_false {b : Bool} (h : ¬ b = true) : b = false := by
  cases b
  · rfl
  · exact absurd rfl h

/-- A recorded best pair survives the rest of the consumption loop. -/
theorem consumeLoop_best_isSome_mono (target : Nat) (ex : Path → Bool) (fd : Path)
    (ct : Option Nat) (l : List AttemptResult) (st : SearchState) (under : Bool)
    (t : Nat) (h : st.best.isSome = true) :
    (consumeLoop target ex fd ct l st under t).st.best.isSome = true := by
  induction l generalizing st under t with
  | nil => exact h
  | cons r rs ih =>
    by_cases hc : cancelAt ct t = true
    · rw [consumeLoop_cons_cancel target ex fd ct r rs st under t hc]
      exact h
    · have hc' : cancelAt ct t = false := bool_eq_false hc
      by_cases hbrk : (consumeOne target ex fd st under r).2.2 = true
      · rw [consumeLoop_cons_brk target ex fd ct r rs st under t hc' hbrk]
        exact consumeOne_best_isSome_mono target ex fd st under r h
      · have hbrk' : (consumeOne target ex fd st under r).2.2 = false := bool_eq_false hbrk
        rw [consumeLoop_cons_step target ex fd ct r rs st under t hc' hbrk']
        exact ih _ _ _ (consumeOne_best_isSome_mono target ex fd st under r h)

theorem consumeLoop_best_isSome (target : Nat) (ex : Path → Bool) (fd : Path)
    (ct : Option Nat) (l : List AttemptResult) (st : SearchState) (under : Bool)
    (t : Nat) (r : AttemptResult) (s : Nat) (pth : Path)
    (hmem : r ∈ (consumeLoop target ex fd ct l st under t).consumed)
    (hs : r.size = some s) (hp : r.path = some pth) (hex : ex pth = true)
    (hle : s ≤ target) :
    (consumeLoop target ex fd ct l st under t).st.best.isSome = true := by
  induction l generalizing st under t with
  | nil => simp [consumeLoop] at hmem
  | cons r' rs ih =>
    by_cases hc : cancelAt ct t = true
    · rw [consumeLoop_cons_cancel target ex fd ct r' rs st under t hc] at hmem
      simp at hmem
    · have hc' : cancelAt ct t = false := bool_eq_false hc
      by_cases hbrk : (consumeOne target ex fd st under r').2.2 = true
      · rw [consumeLoop_cons_brk target ex fd ct r' rs st under t hc' hbrk] at hmem ⊢
        have hmem' : r ∈ [r'] := hmem
        obtain rfl : r = r' := by simpa using hmem'
        exact consumeOne_sets_best target ex fd st under r s pth hs hp hex hle
      · have hbrk' : (consumeOne target ex fd st under r').2.2 = false := bool_eq_false hbrk
        rw [consumeLoop_cons_step target ex fd ct r' rs st under t hc' hbrk'] at hmem ⊢
        have hmem' : r ∈ r' :: (consumeLoop target ex fd ct rs
            (consumeOne target ex fd st under r').1
            (consumeOne target ex fd st under r').2.1 (t + 1)).consumed := hmem
        rcases List.mem_cons.mp hmem' with rfl | hmem2
        · exact consumeLoop_best_isSome_mono target ex fd ct rs _ _ _
            (consumeOne_sets_best target ex fd st under r s pth hs hp hex hle)
        · exact ih _ _ _ hmem2

/-- The task-creation phase of one tier. -/
def tierBuild (env : RunEnv) (i : Nat) (b : BatchSpec) (c t : Nat) : BuildOut :=
  qualityLoop env.cancelTime (batchDir env i) b.lossies b.frame_skips b.qualities c (t + 1)

/-- The result-consumption phase of one tier. -/
def tierConsume (env : RunEnv) (i : Nat) (st : SearchState) (bo : BuildOut) : ConsumeOut :=
  consumeLoop (targetBytes env) env.ex (framesDir env) env.cancelTime (env.tierResults i)
    st true (bo.t + 1)

/-- The search state after one tier's consumption and batch-directory
scheduling. -/
def tierStateAfter (env : RunEnv) (i : Nat) (st : SearchState) (bo : BuildOut) :
    SearchState :=
  { (tierConsume env i st bo).st with
    cleanup := addCleanup (tierConsume env i st bo).st.cleanup (batchDir env i) }

theorem tierLoop_cons_ret (env : RunEnv) (i : Nat) (b : BatchSpec)
    (rest : List (Nat × BatchSpec)) (st : SearchState) (c t : Nat)
    (hc : cancelAt env.cancelTime t = true) :
    tierLoop env ((i, b) :: rest) st c t = ⟨st, [], t + 1, c, true⟩ := by
  simp [tierLoop, hc]

theorem tierLoop_cons_cbc (env : RunEnv) (i : Nat) (b : BatchSpec)
    (rest : List (Nat × BatchSpec)) (st : SearchState) (c t : Nat)
    (hc : cancelAt env.cancelTime t = false)
    (hc2 : cancelAt env.cancelTime (tierBuild env i b c t).t = true) :
    tierLoop env ((i, b) :: rest) st c t =
      ⟨st, [⟨i, (tierBuild env i b c t).params, [], true, some .cancelBeforeConsume⟩],
        (tierBuild env i b c t).t + 1, (tierBuild env i b c t).counter, false⟩ := by
  simp only [tierLoop, tierBuild] at hc2 ⊢
  rw [hc, hc2]
  simp

theorem tierLoop_cons_coa (env : RunEnv) (i : Nat) (b : BatchSpec)
    (rest : List (Nat × BatchSpec)) (st : SearchState) (c t : Nat)
    (hc : cancelAt env.cancelTime t = false)
    (hc2 : cancelAt env.cancelTime (tierBuild env i b c t).t = false)
    (hc3 : (cancelAt env.cancelTime (tierConsume env i st (tierBuild env i b c t)).t ||
      (tierStateAfter env i st (tierBuild env i b c t)).found_acceptable) = true) :
    tierLoop env ((i, b) :: rest) st c t =
      ⟨tierStateAfter env i st (tierBuild env i b c t),
        [⟨i, (tierBuild env i b c t).params,
          (tierConsume env i st (tierBuild env i b c t)).consumed,
          (tierConsume env i st (tierBuild env i b c t)).under, some .cancelOrAcceptable⟩],
        (tierConsume env i st (tierBuild env i b c t)).t + 1,
        (tierBuild env i b c t).counter, false⟩ := by
  simp only [tierLoop, tierBuild, tierConsume, tierStateAfter] at hc2 hc3 ⊢
  rw [hc, hc2, hc3]
  simp

theorem tierLoop_cons_uu (env : RunEnv) (i : Nat) (b : BatchSpec)
    (rest : List (Nat × BatchSpec)) (st : SearchState) (c t : Nat)
    (hc : cancelAt env.cancelTime t = false)
    (hc2 : cancelAt env.cancelTime (tierBuild env i b c t).t = false)
    (hc3 : (cancelAt env.cancelTime (tierConsume env i st (tierBuild env i b c t)).t ||
      (tierStateAfter env i st (tierBuild env i b c t)).found_acceptable) = false)
    (hc4 : ((tierConsume env i st (tierBuild env i b c t)).under &&
      (tierStateAfter env i st (tierBuild env i b c t)).best.isSome) = true) :
    tierLoop env ((i, b) :: rest) st c t =
      ⟨tierStateAfter env i st (tierBuild env i b c t),
        [⟨i, (tierBuild env i b c t).params,
          (tierConsume env i st (tierBuild env i b c t)).consumed,
          (tierConsume env i st (tierBuild env i b c t)).under, some .uniformUnder⟩],
        (tierConsume env i st (tierBuild env i b c t)).t + 1,
        (tierBuild env i b c t).counter, false⟩ := by
  simp only [tierLoop, tierBuild, tierConsume, tierStateAfter] at hc2 hc3 hc4 ⊢
  rw [hc, hc2, hc3, hc4]
  simp

theorem tierLoop_cons_next (env : RunEnv) (i : Nat) (b : BatchSpec)
    (rest : List (Nat × BatchSpec)) (st : SearchState) (c t : Nat)
    (hc : cancelAt env.cancelTime t = false)
    (hc2 : cancelAt env.cancelTime (tierBuild env i b c t).t = false)
    (hc3 : (cancelAt env.cancelTime (tierConsume env i st (tierBuild env i b c t)).t ||
      (tierStateAfter env i st (tierBuild env i b c t)).found_acceptable) = false)
    (hc4 : ((tierConsume env i st (tierBuild env i b c t)).under &&
      (tierStateAfter env i st (tierBuild env i b c t)).best.isSome) = false) :
    tierLoop env ((i, b) :: rest) st c t =
      { tierLoop env rest (tierStateAfter env i st (tierBuild env i b c t))
          (tierBuild env i b c t).counter
          ((tierConsume env i st (tierBuild env i b c t)).t + 1) with
        trace := ⟨i, (tierBuild env i b c t).params,
            (tierConsume env i st (tierBuild env i b c t)).consumed,
            (tierConsume env i st (tierBuild env i b c t)).under, none⟩ ::
          (tierLoop env rest (tierStateAfter env i st (tierBuild env i b c t))
            (tierBuild env i b c t).counter
            ((tierConsume env i st (tierBuild env i b c t)).t + 1)).trace } := by
  simp only [tierLoop, tierBuild, tierConsume, tierStateAfter] at hc2 hc3 hc4 ⊢
  rw [hc, hc2, hc3, hc4]
  simp

/-- Every trace entry's tier index comes from the supplied batch list. -/
theorem tierLoop_trace_idx (env : RunEnv) (bs : List (Nat × BatchSpec))
    (st : SearchState) (c t : Nat) :
    ∀ tr ∈ (tierLoop env bs st c t).trace, tr.idx ∈ bs.map Prod.fst := by
  induction bs generalizing st c t with
  | nil => intro tr htr; simp [tierLoop] at htr
  | cons ib rest ih =>
    obtain ⟨i, b⟩ := ib
    intro tr htr
    by_cases hc : cancelAt env.cancelTime t = true
    · rw [tierLoop_cons_ret env i b rest st c t hc] at htr
      simp at htr
    · have hc' : cancelAt env.cancelTime t = false := bool_eq_false hc
      by_cases hc2 : cancelAt env.cancelTime (tierBuild env i b c t).t = true
      · rw [tierLoop_cons_cbc env i b rest st c t hc' hc2] at htr
        have : tr = ⟨i, (tierBuild env i b c t).params, [], true,
            some .cancelBeforeConsume⟩ := by simpa using htr
        subst this
        simp
      · have hc2' := bool_eq_false hc2
        by_cases hc3 : (cancelAt env.cancelTime
            (tierConsume env i st (tierBuild env i b c t)).t ||
            (tierStateAfter env i st (tierBuild env i b c t)).found_acceptable) = true
        · rw [tierLoop_cons_coa env i b rest st c t hc' hc2' hc3] at htr
          have : tr = ⟨i, (tierBuild env i b c t).params,
              (tierConsume env i st (tierBuild env i b c t)).consumed,
              (tierConsume env i st (tierBuild env i b c t)).under,
              some .cancelOrAcceptable⟩ := by simpa using htr
          subst this
          simp
        · have hc3' := bool_eq_false hc3
          by_cases hc4 : ((tierConsume env i st (tierBuild env i b c t)).under &&
              (tierStateAfter env i st (tierBuild env i b c t)).best.isSome) = true
          · rw [tierLoop_cons_uu env i b rest st c t hc' hc2' hc3' hc4] at htr
            have : tr = ⟨i, (tierBuild env i b c t).params,
                (tierConsume env i st (tierBuild env i b c t)).consumed,
                (tierConsume env i st (tierBuild env i b c t)).under,
                some .uniformUnder⟩ := by simpa using htr
            subst this
            simp
          · have hc4' := bool_eq_false hc4
            rw [tierLoop_cons_next env i b rest st c t hc' hc2' hc3' hc4'] at htr
            have htr' : tr = ⟨i, (tierBuild env i b c t).params,
                (tierConsume env i st (tierBuild env i b c t)).consumed,
                (tierConsume env i st (tierBuild env i b c t)).under, none⟩ ∨
                tr ∈ (tierLoop env rest (tierStateAfter env i st (tierBuild env i b c t))
                  (tierBuild env i b c t).counter
                  ((tierConsume env i st (tierBuild env i b c t)).t + 1)).trace := by
              simpa using htr
            rcases htr' with rfl | htail
            · simp
            · exact List.mem_cons_of_mem _ (ih _ _ _ tr htail)

theorem validResult_spec (ex : Path → Bool) (r : AttemptResult)
    (h : validResult ex r = true) :
    ∃ s p, r.size = some s ∧ r.path = some p ∧ ex p = true := by
  obtain ⟨rs, rp, rsd⟩ := r
  cases rs with
  | none => simp [validResult] at h
  | some s =>
    cases rp with
    | none => simp [validResult] at h
    | some p => exact ⟨s, p, rfl, rfl, h⟩

theorem overTarget_false_of_le (target : Nat) (ex : Path → Bool) (r : AttemptResult)
    (h : ∀ s, r.size = some s → validResult ex r = true → s ≤ target) :
    overTarget target ex r = false := by
  obtain ⟨rs, rp, rsd⟩ := r
  cases rs with
  | none => rfl
  | some s =>
    cases rp with
    | none => rfl
    | some p =>
      simp only [overTarget]
      by_cases hex : ex p = true
      · have := h s rfl (by simpa [validResult] using hex)
        simp [hex, decide_eq_false (by omega : ¬ target < s)]
      · simp [bool_eq_false hex]

theorem le_of_overTarget_false (target : Nat) (ex : Path → Bool) (r : AttemptResult)
    (h : overTarget target ex r = false) :
    ∀ s, r.size = some s → validResult ex r = true → s ≤ target := by
  intro s hs hv
  obtain ⟨s', p, hs', hp, hex⟩ := validResult_spec ex r hv
  rw [hs] at hs'
  obtain rfl : s = s' := Option.some.inj hs'
  obtain ⟨rs, rp, rsd⟩ := r
  simp only at hs hp
  subst hs; subst hp
  simp only [overTarget, hex, Bool.true_and, decide_eq_false_iff_not] at h
  omega

/-- The core early-exit argument: a trace entry whose consumed valid
results are all within target, where the tier's result list contains at
least one valid result, is the last entry of the trace — every entry's
index is at most its index. -/
theorem tierLoop_uniform_stop (env : RunEnv) (bs : List (Nat × BatchSpec))
    (st : SearchState) (c t : Nat)
    (hfound : st.found_acceptable = false)
    (hsorted : (bs.map Prod.fst).Pairwise (· < ·))
    (tr : TierTrace) (htr : tr ∈ (tierLoop env bs st c t).trace)
    (hcons : ∀ r ∈ tr.consumed, overTarget (targetBytes env) env.ex r = false)
    (hvalid : ∃ r ∈ env.tierResults tr.idx, validResult env.ex r = true) :
    ∀ tr' ∈ (tierLoop env bs st c t).trace, tr'.idx ≤ tr.idx := by
  induction bs generalizing st c t with
  | nil => simp [tierLoop] at htr
  | cons ib rest ih =>
    obtain ⟨i, b⟩ := ib
    by_cases hc : cancelAt env.cancelTime t = true
    · rw [tierLoop_cons_ret env i b rest st c t hc] at htr
      simp at htr
    · have hc' : cancelAt env.cancelTime t = false := bool_eq_false hc
      by_cases hc2 : cancelAt env.cancelTime (tierBuild env i b c t).t = true
      · rw [tierLoop_cons_cbc env i b rest st c t hc' hc2] at htr ⊢
        have htr' : tr = ⟨i, (tierBuild env i b c t).params, [], true,
            some .cancelBeforeConsume⟩ := by simpa using htr
        intro tr' htr2
        have : tr' = ⟨i, (tierBuild env i b c t).params, [], true,
            some .cancelBeforeConsume⟩ := by simpa using htr2
        rw [this, htr']
      · have hc2' := bool_eq_false hc2
        by_cases hc3 : (cancelAt env.cancelTime
            (tierConsume env i st (tierBuild env i b c t)).t ||
            (tierStateAfter env i st (tierBuild env i b c t)).found_acceptable) = true
        · rw [tierLoop_cons_coa env i b rest st c t hc' hc2' hc3] at htr ⊢
          have htr' : tr = ⟨i, (tierBuild env i b c t).params,
              (tierConsume env i st (tierBuild env i b c t)).consumed,
              (tierConsume env i st (tierBuild env i b c t)).under,
              some .cancelOrAcceptable⟩ := by simpa using htr
          intro tr' htr2
          have : tr' = ⟨i, (tierBuild env i b c t).params,
              (tierConsume env i st (tierBuild env i b c t)).consumed,
              (tierConsume env i st (tierBuild env i b c t)).under,
              some .cancelOrAcceptable⟩ := by simpa using htr2
          rw [this, htr']
        · have hc3' := bool_eq_false hc3
          by_cases hc4 : ((tierConsume env i st (tierBuild env i b c t)).under &&
              (tierStateAfter env i st (tierBuild env i b c t)).best.isSome) = true
          · rw [tierLoop_cons_uu env i b rest st c t hc' hc2' hc3' hc4] at htr ⊢
            have htr' : tr = ⟨i, (tierBuild env i b c t).params,
                (tierConsume env i st (tierBuild env i b c t)).consumed,
                (tierConsume env i st (tierBuild env i b c t)).under,
                some .uniformUnder⟩ := by simpa using htr
            intro tr' htr2
            have : tr' = ⟨i, (tierBuild env i b c t).params,
                (tierConsume env i st (tierBuild env i b c t)).consumed,
                (tierConsume env i st (tierBuild env i b c t)).under,
                some .uniformUnder⟩ := by simpa using htr2
            rw [this, htr']
          · have hc4' := bool_eq_false hc4
            have horf := Bool.or_eq_false_iff.mp hc3'
            have hctf : cancelAt env.cancelTime
                (tierConsume env i st (tierBuild env i b c t)).t = false := horf.1
            have hfdf : (tierConsume env i st (tierBuild env i b c t)).st.found_acceptable =
                false := horf.2
            rw [tierLoop_cons_next env i b rest st c t hc' hc2' hc3' hc4'] at htr ⊢
            have htr' : tr = ⟨i, (tierBuild env i b c t).params,
                (tierConsume env i st (tierBuild env i b c t)).consumed,
                (tierConsume env i st (tierBuild env i b c t)).under, none⟩ ∨
                tr ∈ (tierLoop env rest (tierStateAfter env i st (tierBuild env i b c t))
                  (tierBuild env i b c t).counter
                  ((tierConsume env i st (tierBuild env i b c t)).t + 1)).trace := by
              simpa using htr
            rcases htr' with rfl | htail
            · -- the continue branch contradicts the tier's hypotheses
              exfalso
              have hcb : (tierConsume env i st (tierBuild env i b c t)).cancelBreak =
                  false := by
                cases hx : (tierConsume env i st (tierBuild env i b c t)).cancelBreak
                · rfl
                · have := consumeLoop_cancelBreak (targetBytes env) env.ex (framesDir env)
                    env.cancelTime (env.tierResults i) st true
                    ((tierBuild env i b c t).t + 1) hx
                  rw [show consumeLoop (targetBytes env) env.ex (framesDir env)
                      env.cancelTime (env.tierResults i) st true
                      ((tierBuild env i b c t).t + 1) =
                      tierConsume env i st (tierBuild env i b c t) from rfl] at this
                  rw [this] at hctf
                  exact Bool.noConfusion hctf
              have hall : (tierConsume env i st (tierBuild env i b c t)).consumed =
                  env.tierResults i :=
                consumeLoop_consumed_all (targetBytes env) env.ex (framesDir env)
                  env.cancelTime (env.tierResults i) st true
                  ((tierBuild env i b c t).t + 1) hfound hcb hfdf
              obtain ⟨rv, hrvmem, hrvvalid⟩ := hvalid
              have hrvc : rv ∈ (tierConsume env i st (tierBuild env i b c t)).consumed := by
                rw [hall]
                exact hrvmem
              obtain ⟨s, p, hss, hpp, hexx⟩ := validResult_spec env.ex rv hrvvalid
              have hle : s ≤ targetBytes env :=
                le_of_overTarget_false (targetBytes env) env.ex rv (hcons rv hrvc) s hss
                  hrvvalid
              have hbestSome :
                  (tierConsume env i st (tierBuild env i b c t)).st.best.isSome = true :=
                consumeLoop_best_isSome (targetBytes env) env.ex (framesDir env)
                  env.cancelTime (env.tierResults i) st true
                  ((tierBuild env i b c t).t + 1) rv s p hrvc hss hpp hexx hle
              have hunder : (tierConsume env i st (tierBuild env i b c t)).under = true := by
                rw [show tierConsume env i st (tierBuild env i b c t) =
                    consumeLoop (targetBytes env) env.ex (framesDir env) env.cancelTime
                      (env.tierResults i) st true ((tierBuild env i b c t).t + 1) from rfl,
                  consumeLoop_under_eq]
                simp only [Bool.true_and, List.all_eq_true]
                intro r hr
                have := hcons r (by
                  rw [show consumeLoop (targetBytes env) env.ex (framesDir env)
                      env.cancelTime (env.tierResults i) st true
                      ((tierBuild env i b c t).t + 1) =
                      tierConsume env i st (tierBuild env i b c t) from rfl] at hr
                  exact hr)
                simp [this]
              have hbestSome' : (tierStateAfter env i st
                  (tierBuild env i b c t)).best.isSome = true := hbestSome
              rw [hunder, hbestSome'] at hc4'
              simp at hc4'
            · -- the tier entry sits before the breaking tier
              have hsorted' : (∀ (a : Nat) (x : BatchSpec), (a, x) ∈ rest → i < a) ∧
                  List.Pairwise (· < ·) (rest.map Prod.fst) := by simpa using hsorted
              intro tr' htr2
              have htr2' : tr' = ⟨i, (tierBuild env i b c t).params,
                  (tierConsume env i st (tierBuild env i b c t)).consumed,
                  (tierConsume env i st (tierBuild env i b c t)).under, none⟩ ∨
                  tr' ∈ (tierLoop env rest (tierStateAfter env i st (tierBuild env i b c t))
                    (tierBuild env i b c t).counter
                    ((tierConsume env i st (tierBuild env i b c t)).t + 1)).trace := by
                simpa using htr2
              have hidx : tr.idx ∈ rest.map Prod.fst :=
                tierLoop_trace_idx env rest _ _ _ tr htail
              rcases htr2' with rfl | htail2
              · have hlt : i < tr.idx := by
                  obtain ⟨⟨a, x⟩, hmemp, hfst⟩ := List.mem_map.mp hidx
                  have := hsorted'.1 a x hmemp
                  simp only at hfst
                  omega
                exact le_of_lt hlt
              · exact ih (tierStateAfter env i st (tierBuild env i b c t))
                  (tierBuild env i b c t).counter
                  ((tierConsume env i st (tierBuild env i b c t)).t + 1)
                  hfdf hsorted'.2 htail tr' htail2

/-- The all-under-target break leaves a recorded best pair in the loop's
final state. -/
theorem tierLoop_uniform_best (env : RunEnv) (bs : List (Nat × BatchSpec))
    (st : SearchState) (c t : Nat) (tr : TierTrace)
    (htr : tr ∈ (tierLoop env bs st c t).trace)
    (hbrk : tr.brk = some TierBreak.uniformUnder) :
    (tierLoop env bs st c t).st.best.isSome = true := by
  induction bs generalizing st c t with
  | nil => simp [tierLoop] at htr
  | cons ib rest ih =>
    obtain ⟨i, b⟩ := ib
    by_cases hc : cancelAt env.cancelTime t = true
    · rw [tierLoop_cons_ret env i b rest st c t hc] at htr
      simp at htr
    · have hc' := bool_eq_false hc
      by_cases hc2 : cancelAt env.cancelTime (tierBuild env i b c t).t = true
      · rw [tierLoop_cons_cbc env i b rest st c t hc' hc2] at htr
        have htr' : tr = ⟨i, (tierBuild env i b c t).params, [], true,
            some .cancelBeforeConsume⟩ := by simpa using htr
        rw [htr'] at hbrk
        simp at hbrk
      · have hc2' := bool_eq_false hc2
        by_cases hc3 : (cancelAt env.cancelTime
            (tierConsume env i st (tierBuild env i b c t)).t ||
            (tierStateAfter env i st (tierBuild env i b c t)).found_acceptable) = true
        · rw [tierLoop_cons_coa env i b rest st c t hc' hc2' hc3] at htr
          have htr' : tr = ⟨i, (tierBuild env i b c t).params,
              (tierConsume env i st (tierBuild env i b c t)).consumed,
              (tierConsume env i st (tierBuild env i b c t)).under,
              some .cancelOrAcceptable⟩ := by simpa using htr
          rw [htr'] at hbrk
          simp at hbrk
        · have hc3' := bool_eq_false hc3
          by_cases hc4 : ((tierConsume env i st (tierBuild env i b c t)).under &&
              (tierStateAfter env i st (tierBuild env i b c t)).best.isSome) = true
          · rw [tierLoop_cons_uu env i b rest st c t hc' hc2' hc3' hc4]
            have h4 := hc4
            simp only [Bool.and_eq_true] at h4
            exact h4.2
          · have hc4' := bool_eq_false hc4
            rw [tierLoop_cons_next env i b rest st c t hc' hc2' hc3' hc4'] at htr ⊢
            have htr' : tr = ⟨i, (tierBuild env i b c t).params,
                (tierConsume env i st (tierBuild env i b c t)).consumed,
                (tierConsume env i st (tierBuild env i b c t)).under, none⟩ ∨
                tr ∈ (tierLoop env rest (tierStateAfter env i st (tierBuild env i b c t))
                  (tierBuild env i b c t).counter
                  ((tierConsume env i st (tierBuild env i b c t)).t + 1)).trace := by
              simpa using htr
            rcases htr' with rfl | htail
            · simp at hbrk
            · exact ih _ _ _ htail

/-- The all-under-target break happens with the under flag raised, hence
with no valid over-target result among the consumed ones. -/
theorem tierLoop_uniform_consumed (env : RunEnv) (bs : List (Nat × BatchSpec))
    (st : SearchState) (c t : Nat) (tr : TierTrace)
    (htr : tr ∈ (tierLoop env bs st c t).trace)
    (hbrk : tr.brk = some TierBreak.uniformUnder) :
    tr.under = true ∧
      ∀ r ∈ tr.consumed, overTarget (targetBytes env) env.ex r = false := by
  induction bs generalizing st c t with
  | nil => simp [tierLoop] at htr
  | cons ib rest ih =>
    obtain ⟨i, b⟩ := ib
    by_cases hc : cancelAt env.cancelTime t = true
    · rw [tierLoop_cons_ret env i b rest st c t hc] at htr
      simp at htr
    · have hc' := bool_eq_false hc
      by_cases hc2 : cancelAt env.cancelTime (tierBuild env i b c t).t = true
      · rw [tierLoop_cons_cbc env i b rest st c t hc' hc2] at htr
        have htr' : tr = ⟨i, (tierBuild env i b c t).params, [], true,
            some .cancelBeforeConsume⟩ := by simpa using htr
        rw [htr'] at hbrk
        simp at hbrk
      · have hc2' := bool_eq_false hc2
        by_cases hc3 : (cancelAt env.cancelTime
            (tierConsume env i st (tierBuild env i b c t)).t ||
            (tierStateAfter env i st (tierBuild env i b c t)).found_acceptable) = true
        · rw [tierLoop_cons_coa env i b rest st c t hc' hc2' hc3] at htr
          have htr' : tr = ⟨i, (tierBuild env i b c t).params,
              (tierConsume env i st (tierBuild env i b c t)).consumed,
              (tierConsume env i st (tierBuild env i b c t)).under,
              some .cancelOrAcceptable⟩ := by simpa using htr
          rw [htr'] at hbrk
          simp at hbrk
        · have hc3' := bool_eq_false hc3
          by_cases hc4 : ((tierConsume env i st (tierBuild env i b c t)).under &&
              (tierStateAfter env i st (tierBuild env i b c t)).best.isSome) = true
          · rw [tierLoop_cons_uu env i b rest st c t hc' hc2' hc3' hc4] at htr
            have htr' : tr = ⟨i, (tierBuild env i b c t).params,
                (tierConsume env i st (tierBuild env i b c t)).consumed,
                (tierConsume env i st (tierBuild env i b c t)).under,
                some .uniformUnder⟩ := by simpa using htr
            subst htr'
            have h4 := hc4
            simp only [Bool.and_eq_true] at h4
            have hunder : (tierConsume env i st (tierBuild env i b c t)).under = true :=
              h4.1
            refine ⟨hunder, ?_⟩
            intro r hr
            have hue := consumeLoop_under_eq (targetBytes env) env.ex (framesDir env)
              env.cancelTime (env.tierResults i) st true ((tierBuild env i b c t).t + 1)
            have hunder' : (consumeLoop (targetBytes env) env.ex (framesDir env)
                env.cancelTime (env.tierResults i) st true
                ((tierBuild env i b c t).t + 1)).under = true := hunder
            rw [hunder'] at hue
            have hr' : r ∈ (consumeLoop (targetBytes env) env.ex (framesDir env)
                env.cancelTime (env.tierResults i) st true
                ((tierBuild env i b c t).t + 1)).consumed := hr
            have hx := (List.all_eq_true.mp hue.symm) r hr'
            simpa using hx
          · have hc4' := bool_eq_false hc4
            rw [tierLoop_cons_next env i b rest st c t hc' hc2' hc3' hc4'] at htr
            have htr' : tr = ⟨i, (tierBuild env i b c t).params,
                (tierConsume env i st (tierBuild env i b c t)).consumed,
                (tierConsume env i st (tierBuild env i b c t)).under, none⟩ ∨
                tr ∈ (tierLoop env rest (tierStateAfter env i st (tierBuild env i b c t))
                  (tierBuild env i b c t).counter
                  ((tierConsume env i st (tierBuild env i b c t)).t + 1)).trace := by
              simpa using htr
            rcases htr' with rfl | htail
            · simp at hbrk
            · exact ih _ _ _ htail

/-- C4 as amended: if every valid result consumed in a tier is at or under
the target and at least one valid result exists in that tier's result list,
then no attempt from any later tier is launched; and the all-under early
exit at the end of a tier is taken only when every valid result consumed in
that tier was at or under target AND a best candidate has been recorded (in
that tier or any earlier one) — the existence of a valid result in the
exiting tier itself is not required. -/
theorem C4_amended (env : RunEnv) (tr : TierTrace)
    (htr : tr ∈ (runConvert env).trace) :
    ((∀ r ∈ tr.consumed, ∀ s, r.size = some s → validResult env.ex r = true →
        s ≤ targetBytes env) →
      (∃ r ∈ env.tierResults tr.idx, validResult env.ex r = true) →
      ∀ tr' ∈ (runConvert env).trace, tr'.idx ≤ tr.idx) ∧
    (tr.brk = some TierBreak.uniformUnder →
      (∀ r ∈ tr.consumed, ∀ s, r.size = some s → validResult env.ex r = true →
        s ≤ targetBytes env) ∧ (runConvert env).best.isSome = true) := by
  by_cases h0 : cancelAt env.cancelTime 0 = true
  · rw [show runConvert env = ⟨.cancelled, [], [], none, false, 0⟩ from by
      simp [runConvert, h0]] at htr
    simp at htr
  · have h0' := bool_eq_false h0
    by_cases hpre : env.preLoopFails = true
    · rw [show runConvert env = ⟨.errored, [], [], none, false, 0⟩ from by
        simp [runConvert, h0', hpre]] at htr
      simp at htr
    · have hpre' := bool_eq_false hpre
      have hrun : runConvert env =
          ⟨(finalizeOutcome env (tierLoop env (List.enumFrom 1 batch_params)
              ⟨none, false, []⟩ 0 1)).1,
            (tierLoop env (List.enumFrom 1 batch_params) ⟨none, false, []⟩ 0 1).trace,
            (tierLoop env (List.enumFrom 1 batch_params) ⟨none, false, []⟩ 0 1).st.cleanup,
            (tierLoop env (List.enumFrom 1 batch_params) ⟨none, false, []⟩ 0 1).st.best,
            (finalizeOutcome env (tierLoop env (List.enumFrom 1 batch_params)
              ⟨none, false, []⟩ 0 1)).2,
            (tierLoop env (List.enumFrom 1 batch_params) ⟨none, false, []⟩ 0 1).t⟩ := by
        simp [runConvert, h0', hpre']
      rw [hrun] at htr ⊢
      have htr' : tr ∈ (tierLoop env (List.enumFrom 1 batch_params)
          ⟨none, false, []⟩ 0 1).trace := htr
      refine ⟨?_, ?_⟩
      · intro hcons hvalid tr' htr2
        exact tierLoop_uniform_stop env (List.enumFrom 1 batch_params) ⟨none, false, []⟩
          0 1 rfl (by decide) tr htr'
          (fun r hr => overTarget_false_of_le _ _ _ (hcons r hr)) hvalid tr' htr2
      · intro hbrk
        refine ⟨?_, ?_⟩
        · intro r hr s hs hv
          exact le_of_overTarget_false _ _ _
            ((tierLoop_uniform_consumed env _ _ 0 1 tr htr' hbrk).2 r hr) s hs hv
        · exact tierLoop_uniform_best env _ _ 0 1 tr htr' hbrk

/-- A concrete environment where tier 1 has one valid over-target and one
valid under-target result (so no tier-1 early exit) and tier 2 has a single
failed result and no valid result at all. -/
def runEnvC4 : RunEnv :=
  { desired_size := 1, input_parent := ["t"], input_stem := "vid",
    cancelTime := none, preLoopFails := false,
    tierResults := fun i =>
      if i = 1 then
        [⟨some 2000, some ["t", "o.gif"], none⟩, ⟨some 800, some ["t", "u.gif"], none⟩]
      else if i = 2 then [⟨none, none, none⟩] else [],
    ex := fun p => p == ["t", "o.gif"] || p == ["t", "u.gif"],
    use_imagemagick := false, polishResult := none, copyFails := false }

/-- C4 counterexample: in `runEnvC4`, the all-under early exit is taken at
the end of tier 2 (whose only result is a failed attempt — no valid result
exists in that tier), because `batch_results_under_target` is vacuously
true there and a best candidate from tier 1 exists; so the early exit is
NOT taken only under the claimed per-tier condition. -/
theorem C4_counterexample :
    ¬ (∀ tr ∈ (runConvert runEnvC4).trace, tr.brk = some TierBreak.uniformUnder →
        ∃ r ∈ runEnvC4.tierResults tr.idx, validResult runEnvC4.ex r = true) := by
  decide

/-- Witness for C4 at a run whose tier 1 satisfies the forward hypotheses
and exits early. -/
theorem C4_amended_witness :
    (((runConvert runEnvC1b).trace.headD ⟨0, [], [], true, none⟩).idx ≤
      ((runConvert runEnvC1b).trace.headD ⟨0, [], [], true, none⟩).idx) ∧
    (runConvert runEnvC1b).best.isSome = true :=
  ⟨(C4_amended runEnvC1b ((runConvert runEnvC1b).trace.headD ⟨0, [], [], true, none⟩)
      (by decide)).1 (by decide) (by decide)
      ((runConvert runEnvC1b).trace.headD ⟨0, [], [], true, none⟩) (by decide),
   ((C4_amended runEnvC1b ((runConvert runEnvC1b).trace.headD ⟨0, [], [], true, none⟩)
      (by decide)).2 (by decide)).2⟩

/-! ### C2: the finally-block cleanup -/

theorem contains_filter_imp {l : List Path} {p : Path → Bool} {q : Path}
    (h : (l.filter p).contains q = true) : l.contains q = true := by
  simp only [List.contains_iff_exists_mem_beq] at h ⊢
  obtain ⟨a, ha, hb⟩ := h
  exact ⟨a, List.mem_of_mem_filter ha, hb⟩

theorem removeTree_absent (fs : FS) (p q : Path) (h : fs.existsP q = false) :
    (fs.removeTree p).existsP q = false := by
  simp only [FS.existsP, FS.removeTree, Bool.or_eq_false_iff] at h ⊢
  constructor
  · cases hx : (fs.dirs.filter (fun r => !(leadsWith p r))).contains q
    · rfl
    · rw [contains_filter_imp hx] at h
      exact absurd h.1 (by simp)
  · cases hx : (fs.files.filter (fun r => !(leadsWith p r))).contains q
    · rfl
    · rw [contains_filter_imp hx] at h
      exact absurd h.2 (by simp)

theorem existsP_removeTree_of_not_leads (fs : FS) (d p : Path)
    (h : leadsWith d p = false) : (fs.removeTree d).existsP p = fs.existsP p := by
  simp only [FS.existsP, FS.removeTree]
  have hkeep : ∀ l : List Path, (l.filter (fun r => !(leadsWith d r))).contains p =
      l.contains p := by
    intro l
    induction l with
    | nil => rfl
    | cons a as ih =>
      by_cases ha : leadsWith d a = true
      · have hdrop : List.filter (fun r => !(leadsWith d r)) (a :: as) =
            List.filter (fun r => !(leadsWith d r)) as := by
          simp [List.filter_cons, ha]
        have hne : (p == a) = false := by
          cases hx : p == a
          · rfl
          · have hpa : p = a := eq_of_beq hx
            subst hpa
            rw [ha] at h
            exact Bool.noConfusion h
        rw [hdrop, ih]
        simp only [List.contains_cons, hne, Bool.false_or]
      · have hkeep1 : List.filter (fun r => !(leadsWith d r)) (a :: as) =
            a :: List.filter (fun r => !(leadsWith d r)) as := by
          simp [List.filter_cons, bool_eq_false ha]
        rw [hkeep1]
        simp only [List.contains_cons, ih]
  rw [hkeep, hkeep]

theorem cleanStep_absent (failsOn : Path → Bool) (a : FS) (p q : Path)
    (h : a.existsP q = false) : (cleanStep failsOn a p).existsP q = false := by
  simp only [cleanStep]
  split
  · split
    · exact h
    · exact removeTree_absent a p q h
  · exact h

theorem fold_absent (failsOn : Path → Bool) (l : List Path) (fs : FS) (q : Path)
    (h : fs.existsP q = false) :
    (l.foldl (cleanStep failsOn) fs).existsP q = false := by
  induction l generalizing fs with
  | nil => exact h
  | cons d l' ih => exact ih _ (cleanStep_absent failsOn fs d q h)

/-- After the per-item loop, either the parent still exists or everything
below it is already gone. -/
theorem fold_parent_or_absent (failsOn : Path → Bool) (l : List Path) (fs : FS)
    (parent q : Path) (hq : leadsWith parent q = true)
    (hp : fs.existsP parent = true) :
    (l.foldl (cleanStep failsOn) fs).existsP parent = true ∨
      (l.foldl (cleanStep failsOn) fs).existsP q = false := by
  induction l generalizing fs with
  | nil => exact Or.inl hp
  | cons d l' ih =>
    by_cases hstep : (cleanStep failsOn fs d).existsP parent = true
    · exact ih _ hstep
    · right
      have habs : (cleanStep failsOn fs d).existsP q = false := by
        simp only [cleanStep] at hstep ⊢
        by_cases he : fs.existsP d = true
        · simp only [he, if_true] at hstep ⊢
          by_cases hf : failsOn d = true
          · simp only [hf, if_true] at hstep ⊢
            exact absurd hp hstep
          · simp only [bool_eq_false hf, Bool.false_eq_true, if_false] at hstep ⊢
            by_cases hld : leadsWith d parent = true
            · exact existsP_removeTree fs d q (leadsWith_trans hld hq)
            · rw [existsP_removeTree_of_not_leads fs d parent (bool_eq_false hld)]
                at hstep
              exact absurd hp hstep
        · simp only [he, Bool.false_eq_true, if_false] at hstep
          exact absurd hp hstep
      exact Or.inr (fold_absent failsOn l' _ q habs) |>.elim (fun x => x) (fun x => x)

/-- Everything at or below the parent directory is gone after the cleanup,
provided its own removal does not fail (even when any number of per-item
removals failed). -/
theorem finalCleanup_parent_gone (fs : FS) (cleanup : List Path) (parent : Path)
    (failsOn : Path → Bool) (hp : fs.existsP parent = true)
    (hf : failsOn parent = false) :
    ∀ q, leadsWith parent q = true →
      (finalCleanup fs cleanup parent failsOn).existsP q = false := by
  intro q hq
  unfold finalCleanup
  rcases fold_parent_or_absent failsOn cleanup fs parent q hq hp with hpe | habs
  · simp only [cleanStep, hpe, if_true, hf, Bool.false_eq_true, if_false]
    exact existsP_removeTree _ _ _ hq
  · exact cleanStep_absent failsOn _ parent q habs

/-- After the per-item loop, a scheduled item whose removal does not fail
is gone — regardless of what happened to the other items. -/
theorem fold_item_absent (failsOn : Path → Bool) (l : List Path) (d : Path)
    (hf : failsOn d = false) :
    ∀ fs : FS, d ∈ l → (l.foldl (cleanStep failsOn) fs).existsP d = false := by
  induction l with
  | nil =>
    intro fs hd
    simp at hd
  | cons d0 l' ih =>
    intro fs hd
    rcases List.mem_cons.mp hd with rfl | hd'
    · have habs : (cleanStep failsOn fs d).existsP d = false := by
        simp only [cleanStep]
        by_cases he : fs.existsP d = true
        · simp only [he, if_true, hf, Bool.false_eq_true, if_false]
          exact existsP_removeTree fs d d (leadsWith_self d)
        · have he' := bool_eq_false he
          simp only [he', Bool.false_eq_true, if_false]
      exact fold_absent failsOn l' _ d habs
    · exact ih _ hd'

theorem finalCleanup_item_gone (fs : FS) (cleanup : List Path) (parent : Path)
    (failsOn : Path → Bool) (d : Path) (hd : d ∈ cleanup)
    (hf : failsOn d = false) :
    (finalCleanup fs cleanup parent failsOn).existsP d = false :=
  cleanStep_absent failsOn _ parent d (fold_item_absent failsOn cleanup d hf fs hd)

/-- C2: the `finally` cleanup, which runs on every exit path of
`convert_to_gif` (`convertFinalFS` applies it to every environment, the
`errored` and `cancelled` outcomes included), removes every temporary
artifact.  Conjunct one: each artifact kind — the frames directory, the
per-tier batch directories, the per-attempt skip directories created next
to the frames directory, and the per-attempt pre-optimization temp files
inside a batch directory — lies under the temporary parent tree.  Conjunct
two: when the parent tree's removal does not fail, everything at or below
the parent (the parent itself, and every artifact of conjunct one together
with anything the attempts created there) is absent from the final file
system, whatever the run's outcome and whichever individual removals
failed.  Conjunct three: each path scheduled in `temp_files_to_cleanup`
whose own removal does not fail is absent, independent of failures of the
other scheduled removals — one locked file cannot block cleanup of the
rest. -/
theorem C2_cleanup_removes_all (env : RunEnv) (fs0 : FS)
    (attemptDirs attemptFiles : List Path) (failsOn : Path → Bool) :
    (leadsWith (tempParentDir env) (framesDir env) = true ∧
     (∀ i, leadsWith (tempParentDir env) (batchDir env i) = true) ∧
     (∀ (skip : Int) (b a : Nat), leadsWith (tempParentDir env)
        ((framesDir env).dropLast ++ [skipDirName skip b a]) = true) ∧
     (∀ (i : Nat) (nm : String) (b a : Nat), leadsWith (tempParentDir env)
        (tempOutputPath (batchDir env i ++ [nm]) b a) = true)) ∧
    (failsOn (tempParentDir env) = false →
      ∀ q, leadsWith (tempParentDir env) q = true →
        (convertFinalFS env fs0 attemptDirs attemptFiles failsOn).existsP q = false) ∧
    (∀ d ∈ (runConvert env).cleanup, failsOn d = false →
      (convertFinalFS env fs0 attemptDirs attemptFiles failsOn).existsP d = false) := by
  refine ⟨⟨?_, ?_, ?_, ?_⟩, ?_, ?_⟩
  · exact leadsWith_append _ _
  · intro i
    exact leadsWith_append _ _
  · intro skip b a
    have : (framesDir env).dropLast = tempParentDir env := by
      simp [framesDir, List.dropLast_concat]
    rw [this]
    exact leadsWith_append _ _
  · intro i nm b a
    have h1 : (batchDir env i ++ [nm]).dropLast = batchDir env i :=
      List.dropLast_concat
    simp only [tempOutputPath, h1]
    rw [show batchDir env i ++ [splitextStem ((batchDir env i ++ [nm]).getLastD "") ++
        ".temp_" ++ toString b ++ "_" ++ toString a ++ ".gif"] =
      tempParentDir env ++ (["batch_" ++ toString i] ++
        [splitextStem ((batchDir env i ++ [nm]).getLastD "") ++ ".temp_" ++ toString b ++
          "_" ++ toString a ++ ".gif"]) from by simp [batchDir]]
    exact leadsWith_append _ _
  · intro hf q hq
    apply finalCleanup_parent_gone _ _ _ _ _ hf q hq
    simp [FS.existsP]
  · intro d hd hf
    exact finalCleanup_item_gone _ _ _ _ d hd hf

/-- Witness for C2 at a concrete cancelled run with one stale file inside
the temporary tree and one failing removal elsewhere. -/
theorem C2_cleanup_removes_all_witness :
    (convertFinalFS runEnvC5 ⟨[], [["t", "gif_conversion_temp", "stale.gif"]]⟩ [] []
        (fun p => p == ["t", "other"])).existsP
      ["t", "gif_conversion_temp", "stale.gif"] = false :=
  (C2_cleanup_removes_all runEnvC5 ⟨[], [["t", "gif_conversion_temp", "stale.gif"]]⟩ [] []
    (fun p => p == ["t", "other"])).2.1 (by decide)
    ["t", "gif_conversion_temp", "stale.gif"] (by decide)

end GIFLight
